import Mathlib

/-!
Verification of the DrainYourKey (Gen_PhotoNVideo) frontend against its
natural-language specification.

The definitions below are a shallow embedding of the JavaScript source:

* `src/frontend/src/App.jsx` — gallery normalization / merging, the image and
  video polling loops, and the extend-video handler;
* `src/frontend/src/components/video/VideoPlayerModal.jsx` (extension count);
* `src/frontend/src/components/video/VideoPanel.jsx` (duration options);
* `src/frontend/src/services/api.js` (request payload shapes).

Modelling conventions:

* JavaScript `Map` objects are modelled as insertion-ordered association
  lists (`jsMapSet` replaces in place, `jsMapDelete` removes the key, as the
  JS `Map.set` / `Map.delete` methods do).
* Timestamps (`Date.getTime()` values and `'YYYY-MM-DD'` day keys, whose
  comparison via `new Date(key).getTime()` is monotone in the key) are
  modelled as `Nat`.
* Optional / possibly-`undefined` string fields are modelled as `Option`
  or, where the code only distinguishes truthiness, as `String` with `""`
  standing for the falsy values (`undefined`, `null`, `''`).
* `Array.prototype.sort` (stable since ES2019) is modelled as Mathlib's
  `List.insertionSort`, which is stable for the comparators used.
* Floating point aspect ratios are modelled over `ℚ`; a non-finite input
  (`NaN`, `Infinity`) is modelled as `none`.
-/

/-! ## JavaScript `Map` as an insertion-ordered association list -/

/-- `m.has(k)` on a JS `Map` modelled as an association list. -/
def jsMapHas {α β : Type} [BEq α] (m : List (α × β)) (k : α) : Bool :=
  m.any (fun p => p.1 == k)

/-- `m.get(k)` on a JS `Map`. -/
def jsMapGet {α β : Type} [BEq α] (m : List (α × β)) (k : α) : Option β :=
  (m.find? (fun p => p.1 == k)).map (·.2)

/-- `m.set(k, v)` on a JS `Map`: replaces in place if the key is present,
otherwise appends at the end (JS `Map` preserves insertion order). -/
def jsMapSet {α β : Type} [BEq α] (m : List (α × β)) (k : α) (v : β) :
    List (α × β) :=
  if jsMapHas m k then m.map (fun p => if p.1 == k then (k, v) else p)
  else m ++ [(k, v)]

/-- `m.delete(k)` on a JS `Map`. -/
def jsMapDelete {α β : Type} [BEq α] (m : List (α × β)) (k : α) :
    List (α × β) :=
  m.filter (fun p => !(p.1 == k))

/-- `[...m.values()]` on a JS `Map`. -/
def jsMapValues {α β : Type} (m : List (α × β)) : List β :=
  m.map (·.2)

theorem jsMapHas_cons {α β : Type} [BEq α] (p : α × β) (m : List (α × β))
    (k : α) :
    jsMapHas (p :: m) k = ((p.1 == k) || jsMapHas m k) := by
  simp [jsMapHas]

theorem jsMapGet_cons {α β : Type} [BEq α] (p : α × β) (m : List (α × β))
    (k : α) :
    jsMapGet (p :: m) k = if p.1 == k then some p.2 else jsMapGet m k := by
  by_cases hp : (p.1 == k) = true
  · simp [jsMapGet, List.find?_cons_of_pos, hp]
  · simp only [Bool.not_eq_true] at hp
    simp [jsMapGet, List.find?_cons_of_neg, hp]

theorem jsMapGet_set_self {α β : Type} [BEq α] [LawfulBEq α]
    (m : List (α × β)) (k : α) (v : β) :
    jsMapGet (jsMapSet m k v) k = some v := by
  unfold jsMapSet
  by_cases h : jsMapHas m k
  · rw [if_pos h]
    induction m with
    | nil => simp [jsMapHas] at h
    | cons p m ih =>
      by_cases hp : (p.1 == k) = true
      · simp [jsMapGet_cons, hp]
      · rw [Bool.not_eq_true] at hp
        have h' : jsMapHas m k = true := by
          rw [jsMapHas_cons, hp, Bool.false_or] at h
          exact h
        simpa [jsMapGet_cons, hp] using ih h'
  · rw [if_neg h]
    rw [Bool.not_eq_true] at h
    induction m with
    | nil => simp [jsMapGet_cons]
    | cons p m ih =>
      rw [jsMapHas_cons, Bool.or_eq_false_iff] at h
      simp [jsMapGet_cons, h.1, ih h.2]

theorem jsMapGet_set_ne {α β : Type} [BEq α] [LawfulBEq α]
    (m : List (α × β)) (k k' : α) (v : β) (hne : k' ≠ k) :
    jsMapGet (jsMapSet m k v) k' = jsMapGet m k' := by
  have hkk' : ((k : α) == k') = false :=
    beq_eq_false_iff_ne.mpr (fun e => hne e.symm)
  unfold jsMapSet
  by_cases h : jsMapHas m k
  · rw [if_pos h]
    clear h
    induction m with
    | nil => rfl
    | cons p m ih =>
      by_cases hp : (p.1 == k) = true
      · have hp1 : p.1 = k := beq_iff_eq.mp hp
        have hpk' : (p.1 == k') = false := by rw [hp1]; exact hkk'
        simp [jsMapGet_cons, hp, hpk', hkk', ih]
      · simp only [Bool.not_eq_true] at hp
        simp [jsMapGet_cons, hp, ih]
  · rw [if_neg h]
    rw [Bool.not_eq_true] at h
    induction m with
    | nil => simp [jsMapGet_cons, hkk']
    | cons p m ih =>
      rw [jsMapHas_cons, Bool.or_eq_false_iff] at h
      by_cases hp : (p.1 == k') = true
      · simp [jsMapGet_cons, hp]
      · simp only [Bool.not_eq_true] at hp
        simp [jsMapGet_cons, hp, ih h.2]

theorem jsMapGet_delete_self {α β : Type} [BEq α]
    (m : List (α × β)) (k : α) :
    jsMapGet (jsMapDelete m k) k = none := by
  induction m with
  | nil => rfl
  | cons p m ih =>
    by_cases hp : (p.1 == k) = true
    · simpa [jsMapDelete, List.filter_cons, hp] using ih
    · simp only [Bool.not_eq_true] at hp
      simpa [jsMapDelete, List.filter_cons, hp, jsMapGet_cons] using ih

theorem jsMapGet_delete_ne {α β : Type} [BEq α] [LawfulBEq α]
    (m : List (α × β)) (k k' : α) (hne : k' ≠ k) :
    jsMapGet (jsMapDelete m k) k' = jsMapGet m k' := by
  induction m with
  | nil => rfl
  | cons p m ih =>
    by_cases hp : (p.1 == k) = true
    · have hp1 : p.1 = k := beq_iff_eq.mp hp
      have hpk' : (p.1 == k') = false := by
        rw [hp1]; exact beq_eq_false_iff_ne.mpr (fun e => hne e.symm)
      simpa [jsMapDelete, List.filter_cons, hp, jsMapGet_cons, hpk'] using ih
    · simp only [Bool.not_eq_true] at hp
      simp only [jsMapDelete, List.filter_cons, hp] at ih ⊢
      simp [jsMapGet_cons, ih]

/-! ## Video extension counting (VideoPlayerModal.jsx) -/

/-- Whitespace for the purposes of JS `String.prototype.trim`. -/
def jsWhite (c : Char) : Bool :=
  c == ' ' || c == '\t' || c == '\n' || c == '\r'

/-- JS `s.trim()`: strips leading and trailing whitespace. -/
def jsTrim (s : String) : String :=
  String.mk (((s.data.dropWhile jsWhite).reverse.dropWhile jsWhite).reverse)

/-- `calculateExtensionCount` from `VideoPlayerModal.jsx`: number of
extensions already applied. `none` models a `null`/`NaN` duration; the JS
guard `!duration || duration <= 8` is modelled by `d = 0 ∨ d ≤ 8` (the
duration is `Math.round`ed, hence a natural number). -/
def calculateExtensionCount (duration : Option Nat) : Nat :=
  match duration with
  | none => 0
  | some d => if d = 0 ∨ d ≤ 8 then 0 else (d - 8) / 7

/-- `MAX_EXTENSIONS` from `VideoPlayerModal.jsx` (Veo: max 148s,
`(148-8)/7 = 20`). -/
def MAX_EXTENSIONS : Nat := 20

/-- `canStillExtend` computed in `VideoPlayerModal`. -/
def canStillExtend (canExtend : Bool) (duration : Option Nat) : Bool :=
  canExtend && decide (calculateExtensionCount duration < MAX_EXTENSIONS)

/-- Whether `handleExtend` in `VideoPlayerModal` reaches the `onExtend`
call: it returns early unless `canStillExtend` holds and the trimmed
extension prompt is non-empty. -/
def handleExtendFires (canExtend : Bool) (duration : Option Nat)
    (extendPrompt : String) : Bool :=
  canStillExtend canExtend duration && !(jsTrim extendPrompt == "")

/-- The extension count as the spec words it: `floor((duration − 8) / 7)`,
with `0` for a missing duration or one of at most 8 seconds. -/
def specExtensionCount : Option Nat → Nat
  | none => 0
  | some d => if d ≤ 8 then 0 else (d - 8) / 7

/-! ## Extend-video handler (App.jsx) and extend API payload (api.js) -/

/-- A video gallery entry. `videoId = ""` models a missing/falsy
`video.videoId`. -/
structure GalleryVideoItem where
  id : String
  url : String
  filename : String
  resolution : String
  ratio : String
  prompt : String
  mode : String
  videoId : String
  canExtend : Bool
  createdAt : Nat
deriving Repr, DecidableEq

/-- Request body built by `extendVideo` in `services/api.js`. -/
structure ExtendRequest where
  video_id : String
  prompt : String
  aspect_ratio : String
deriving Repr, DecidableEq

/-- The `params` object stored on a video job (`duration` is absent on
extension jobs). -/
structure VideoJobParams where
  mode : String
  ratio : String
  resolution : String
  duration : Option String
deriving Repr, DecidableEq

/-- An entry of the `videoJobs` list in `App.jsx`. -/
structure VideoJob where
  jobId : String
  status : String
  progress : Nat
  prompt : String
  params : VideoJobParams
  isExtension : Bool
deriving Repr, DecidableEq

/-- Outcome of the synchronous validation prefix of `handleExtendVideo`. -/
inductive ExtendOutcome where
  | rejectedNoVideoId
  | rejectedResolution
  | rejectedEmptyPrompt
  | proceed (req : ExtendRequest)
deriving Repr, DecidableEq

/-- The synchronous validation prefix of `handleExtendVideo` (`App.jsx`),
with the guards in source order; `proceed` carries the exact payload the
`extendVideo` API call sends. -/
def handleExtendVideoCheck (video : GalleryVideoItem)
    (extendPrompt : String) : ExtendOutcome :=
  if video.videoId = "" then .rejectedNoVideoId
  else if video.resolution ≠ "720p" then .rejectedResolution
  else if jsTrim extendPrompt = "" then .rejectedEmptyPrompt
  else .proceed ⟨video.videoId, extendPrompt, video.ratio⟩

/-- The job object `handleExtendVideo` appends to `videoJobs` when the
extend call succeeds with `result.job_id = jobId`. -/
def extensionJob (video : GalleryVideoItem) (extendPrompt : String)
    (jobId : String) : VideoJob :=
  { jobId := jobId, status := "pending", progress := 0,
    prompt := "延长: " ++ extendPrompt,
    params := { mode := "extend", ratio := video.ratio,
                resolution := video.resolution, duration := none },
    isExtension := true }

/-- The gallery entry `pollVideoStatus` builds on a completed status (the
`setVideoJobs(prevJobs => …)` block): source parameters are taken from the
matching job, with documented defaults when the job is missing. -/
def completedVideoEntry (jobId : String) (jobs : List VideoJob)
    (videoUrl : String) (createdAt : Nat) : GalleryVideoItem :=
  let filename := ((videoUrl.splitOn "/").getLast?).getD ""
  match jobs.find? (fun j => j.jobId == jobId) with
  | some job =>
      { id := jobId, url := videoUrl, filename := filename,
        resolution := job.params.resolution, ratio := job.params.ratio,
        prompt := job.prompt,
        mode := if job.params.mode = "" then "text2vid" else job.params.mode,
        videoId := jobId,
        canExtend := job.params.resolution == "720p",
        createdAt := createdAt }
  | none =>
      { id := jobId, url := videoUrl, filename := filename,
        resolution := "720p", ratio := "16:9", prompt := "",
        mode := "text2vid", videoId := jobId, canExtend := true,
        createdAt := createdAt }

/-- C1: the number of extensions already applied is
`floor((duration − 8) / 7)` (0 when the duration is missing or ≤ 8s), the
extend operation is blocked once this count reaches the maximum of 20, and
a video whose total duration has reached 148 seconds can never be extended
again. -/
theorem C1_extension_count_formula_and_bound :
    (∀ d : Option Nat, calculateExtensionCount d = specExtensionCount d) ∧
    (∀ (ce : Bool) (d : Option Nat) (p : String),
      MAX_EXTENSIONS ≤ calculateExtensionCount d →
      handleExtendFires ce d p = false) ∧
    (∀ (ce : Bool) (p : String) (d : Nat), 148 ≤ d →
      handleExtendFires ce (some d) p = false) := by
  have hblock : ∀ (ce : Bool) (d : Option Nat) (p : String),
      MAX_EXTENSIONS ≤ calculateExtensionCount d →
      handleExtendFires ce d p = false := by
    intro ce d p h
    unfold handleExtendFires canStillExtend
    have : ¬ calculateExtensionCount d < MAX_EXTENSIONS := by omega
    simp [this]
  refine ⟨?_, hblock, ?_⟩
  · intro d
    match d with
    | none => rfl
    | some d =>
      simp only [calculateExtensionCount, specExtensionCount]
      by_cases h8 : d ≤ 8
      · simp [h8]
      · have h0 : ¬(d = 0 ∨ d ≤ 8) := by omega
        rw [if_neg h0, if_neg h8]
  · intro ce p d hd
    apply hblock
    have h8 : ¬(d = 0 ∨ d ≤ 8) := by omega
    simp only [calculateExtensionCount, h8, if_false, MAX_EXTENSIONS]
    omega

/-- Witness for C1 at concrete inputs: a 148-second video with
`canExtend = true` and a non-empty prompt is still blocked, as is any video
whose computed count has reached the maximum. -/
theorem C1_extension_count_formula_and_bound_witness :
    handleExtendFires true (some 148) "keep going" = false ∧
    handleExtendFires true (some 160) "keep going" = false :=
  ⟨C1_extension_count_formula_and_bound.2.2 true "keep going" 148 (by decide),
   C1_extension_count_formula_and_bound.2.1 true (some 160) "keep going"
     (by decide)⟩

/-- C2: an extend request for a video whose resolution is not `'720p'` is
rejected before the extend API call is reached, and the `canExtend` flag of
a completed video whose job is found equals `resolution = '720p'` for that
job. -/
theorem C2_non720p_rejected_and_canExtend_iff :
    (∀ (video : GalleryVideoItem) (p : String) (req : ExtendRequest),
      video.resolution ≠ "720p" →
      handleExtendVideoCheck video p ≠ .proceed req) ∧
    (∀ (jobId : String) (jobs : List VideoJob) (url : String) (t : Nat)
      (job : VideoJob),
      jobs.find? (fun j => j.jobId == jobId) = some job →
      ((completedVideoEntry jobId jobs url t).canExtend = true ↔
        job.params.resolution = "720p")) := by
  constructor
  · intro video p req hres
    unfold handleExtendVideoCheck
    by_cases hv : video.videoId = ""
    · simp [hv]
    · simp [hv, hres]
  · intro jobId jobs url t job hfind
    simp only [completedVideoEntry, hfind]
    exact beq_iff_eq

/-- A concrete 1080p gallery video, used by witnesses. -/
def sampleVideo1080 : GalleryVideoItem :=
  { id := "v1", url := "/api/video/v1.mp4", filename := "v1.mp4",
    resolution := "1080p", ratio := "16:9", prompt := "",
    mode := "text2vid", videoId := "v1", canExtend := false,
    createdAt := 0 }

/-- A concrete completed 720p video job, used by witnesses. -/
def sampleJob720 : VideoJob :=
  { jobId := "j1", status := "processing", progress := 50, prompt := "p",
    params := { mode := "text2vid", ratio := "16:9",
                resolution := "720p", duration := some "8" },
    isExtension := false }

/-- Witness for C2: a concrete 1080p gallery video is rejected, and a
concrete completed 720p job yields `canExtend = true`. -/
theorem C2_non720p_rejected_and_canExtend_iff_witness :
    (handleExtendVideoCheck sampleVideo1080 "more" ≠
      ExtendOutcome.proceed ⟨"v1", "more", "16:9"⟩) ∧
    ((completedVideoEntry "j1" [sampleJob720] "/api/video/out.mp4"
        5).canExtend = true ↔
      sampleJob720.params.resolution = "720p") :=
  ⟨C2_non720p_rejected_and_canExtend_iff.1 sampleVideo1080 "more"
      ⟨"v1", "more", "16:9"⟩ (by decide),
   C2_non720p_rejected_and_canExtend_iff.2 "j1" [sampleJob720]
      "/api/video/out.mp4" 5 sampleJob720 (by decide)⟩

/-- C5: an eligible extension keeps the source video's resolution and
aspect ratio on the new job, and the extend API payload carries the source
video id, the extension prompt and the source aspect ratio. -/
theorem C5_extension_preserves_source_params :
    ∀ (video : GalleryVideoItem) (p : String) (req : ExtendRequest)
      (jid : String),
      handleExtendVideoCheck video p = .proceed req →
      req.video_id = video.videoId ∧ req.prompt = p ∧
      req.aspect_ratio = video.ratio ∧
      (extensionJob video p jid).params.resolution = video.resolution ∧
      (extensionJob video p jid).params.ratio = video.ratio := by
  intro video p req jid h
  unfold handleExtendVideoCheck at h
  by_cases hv : video.videoId = ""
  · simp [hv] at h
  · by_cases hres : video.resolution ≠ "720p"
    · simp [hv, hres] at h
    · by_cases hp : jsTrim p = ""
      · simp [hv, hres, hp] at h
      · simp only [hv, hres, hp, if_false, if_neg, ite_false] at h
        have : req = ⟨video.videoId, p, video.ratio⟩ := by
          by_contra hne
          simp [hv, hres, hp] at h
          exact hne h.symm
        subst this
        exact ⟨rfl, rfl, rfl, rfl, rfl⟩

/-- A concrete eligible 720p gallery video, used by witnesses. -/
def sampleVideo720 : GalleryVideoItem :=
  { id := "vid9", url := "/api/video/a.mp4", filename := "a.mp4",
    resolution := "720p", ratio := "9:16", prompt := "p0",
    mode := "text2vid", videoId := "vid9", canExtend := true,
    createdAt := 3 }

/-- Witness for C5 at a concrete eligible 720p video. -/
theorem C5_extension_preserves_source_params_witness :
    (⟨"vid9", "continue", "9:16"⟩ : ExtendRequest).video_id =
      sampleVideo720.videoId ∧
    (⟨"vid9", "continue", "9:16"⟩ : ExtendRequest).prompt = "continue" ∧
    (⟨"vid9", "continue", "9:16"⟩ : ExtendRequest).aspect_ratio =
      sampleVideo720.ratio ∧
    (extensionJob sampleVideo720 "continue" "j2").params.resolution =
      sampleVideo720.resolution ∧
    (extensionJob sampleVideo720 "continue" "j2").params.ratio =
      sampleVideo720.ratio :=
  C5_extension_preserves_source_params sampleVideo720 "continue"
    ⟨"vid9", "continue", "9:16"⟩ "j2" (by decide)

/-! ## Closest preset aspect ratio (App.jsx `calculateAspectRatio`) -/

/-- The preset ratio table of `calculateAspectRatio` in `App.jsx`, in
object-literal iteration order, with the decimal values as exact
rationals. -/
def presetRatios : List (String × ℚ) :=
  [("1:1", 1), ("2:3", 667/1000), ("3:2", 15/10), ("3:4", 75/100),
   ("4:3", 1333/1000), ("4:5", 8/10), ("5:4", 125/100),
   ("9:16", 5625/10000), ("16:9", 1778/1000), ("21:9", 2333/1000)]

/-- One iteration of the `forEach` loop in `calculateAspectRatio`:
`acc.2 = none` models `minDiff = Infinity`. -/
def ratioStep (ratio : ℚ) (acc : String × Option ℚ) (kv : String × ℚ) :
    String × Option ℚ :=
  let diff := |ratio - kv.2|
  match acc.2 with
  | none => (kv.1, some diff)
  | some m => if diff < m then (kv.1, some diff) else acc

/-- `calculateAspectRatio` (App.jsx): `none` models a non-finite input
(`NaN` / `Infinity`). -/
def calculateAspectRatio (ratio : Option ℚ) : String :=
  match ratio with
  | none => "3:2"
  | some q =>
    if q ≤ 0 then "3:2"
    else (presetRatios.foldl (ratioStep q) ("3:2", none)).1

theorem ratioFold_min (q : ℚ) (l : List (String × ℚ)) :
    ∀ (c : String) (m : ℚ),
      ∃ m', (l.foldl (ratioStep q) (c, some m)).2 = some m' ∧ m' ≤ m ∧
        (∀ kv ∈ l, m' ≤ |q - kv.2|) ∧
        ((l.foldl (ratioStep q) (c, some m)).1 = c ∧ m' = m ∨
          ∃ kv ∈ l, (l.foldl (ratioStep q) (c, some m)).1 = kv.1 ∧
            m' = |q - kv.2|) := by
  induction l with
  | nil =>
    intro c m
    exact ⟨m, rfl, le_refl m, by simp, Or.inl ⟨rfl, rfl⟩⟩
  | cons kv l ih =>
    intro c m
    by_cases hlt : |q - kv.2| < m
    · have hstep : ratioStep q (c, some m) kv = (kv.1, some |q - kv.2|) := by
        simp [ratioStep, hlt]
      obtain ⟨m', hm', hle, hall, hcases⟩ := ih kv.1 |q - kv.2|
      refine ⟨m', by simpa [List.foldl_cons, hstep] using hm',
        le_trans hle (le_of_lt hlt), ?_, ?_⟩
      · intro kv' hkv'
        rcases List.mem_cons.mp hkv' with h | h
        · subst h; exact hle
        · exact hall kv' h
      · rcases hcases with ⟨h1, h2⟩ | ⟨kv', hkv', h1, h2⟩
        · exact Or.inr ⟨kv, List.mem_cons_self kv l,
            by simpa [List.foldl_cons, hstep] using h1, h2⟩
        · exact Or.inr ⟨kv', List.mem_cons_of_mem kv hkv',
            by simpa [List.foldl_cons, hstep] using h1, h2⟩
    · have hstep : ratioStep q (c, some m) kv = (c, some m) := by
        simp [ratioStep, hlt]
      obtain ⟨m', hm', hle, hall, hcases⟩ := ih c m
      refine ⟨m', by simpa [List.foldl_cons, hstep] using hm', hle, ?_, ?_⟩
      · intro kv' hkv'
        rcases List.mem_cons.mp hkv' with h | h
        · subst h; exact le_trans hle (not_lt.mp hlt)
        · exact hall kv' h
      · rcases hcases with ⟨h1, h2⟩ | ⟨kv', hkv', h1, h2⟩
        · exact Or.inl ⟨by simpa [List.foldl_cons, hstep] using h1, h2⟩
        · exact Or.inr ⟨kv', List.mem_cons_of_mem kv hkv',
            by simpa [List.foldl_cons, hstep] using h1, h2⟩

theorem ratioFold_closest (q : ℚ) (kv0 : String × ℚ)
    (l : List (String × ℚ)) :
    ∃ kv ∈ kv0 :: l,
      ((kv0 :: l).foldl (ratioStep q) ("3:2", none)).1 = kv.1 ∧
      ∀ kv' ∈ kv0 :: l, |q - kv.2| ≤ |q - kv'.2| := by
  have hstep : ratioStep q ("3:2", none) kv0 = (kv0.1, some |q - kv0.2|) := by
    simp [ratioStep]
  obtain ⟨m', hm', hle, hall, hcases⟩ := ratioFold_min q l kv0.1 |q - kv0.2|
  rcases hcases with ⟨h1, h2⟩ | ⟨kv', hkv', h1, h2⟩
  · refine ⟨kv0, List.mem_cons_self kv0 l, ?_, ?_⟩
    · simpa [List.foldl_cons, hstep] using h1
    · intro kv' hkv'
      rcases List.mem_cons.mp hkv' with h | h
      · subst h; exact le_refl _
      · have hb := hall kv' h
        rw [← h2]; exact hb
  · refine ⟨kv', List.mem_cons_of_mem kv0 hkv', ?_, ?_⟩
    · simpa [List.foldl_cons, hstep] using h1
    · intro kv'' hkv''
      rcases List.mem_cons.mp hkv'' with h | h
      · subst h; rw [← h2]; exact hle
      · rw [← h2]; exact hall kv'' h

/-- C10: `calculateAspectRatio` is total and closed over the ten preset
ratio strings; any non-finite or non-positive input yields `'3:2'`, and a
positive input yields a preset whose numeric value minimizes the absolute
difference to the input. -/
theorem C10_calculateAspectRatio_total_closest :
    (∀ r : Option ℚ, calculateAspectRatio r ∈ presetRatios.map Prod.fst) ∧
    calculateAspectRatio none = "3:2" ∧
    (∀ q : ℚ, q ≤ 0 → calculateAspectRatio (some q) = "3:2") ∧
    (∀ q : ℚ, 0 < q →
      ∃ v : ℚ, (calculateAspectRatio (some q), v) ∈ presetRatios ∧
        ∀ kv ∈ presetRatios, |q - v| ≤ |q - kv.2|) := by
  have hpos : ∀ q : ℚ, 0 < q →
      ∃ v : ℚ, (calculateAspectRatio (some q), v) ∈ presetRatios ∧
        ∀ kv ∈ presetRatios, |q - v| ≤ |q - kv.2| := by
    intro q hq
    have hnle : ¬ q ≤ 0 := not_le.mpr hq
    obtain ⟨kv, hmem, heq, hmin⟩ :=
      ratioFold_closest q ("1:1", (1 : ℚ)) presetRatios.tail
    have hcalc : calculateAspectRatio (some q) = kv.1 := by
      show (if q ≤ 0 then "3:2"
        else (presetRatios.foldl (ratioStep q) ("3:2", none)).1) = kv.1
      rw [if_neg hnle]
      exact heq
    refine ⟨kv.2, ?_, ?_⟩
    · rw [hcalc, Prod.mk.eta]
      exact hmem
    · intro kv' hkv'
      exact hmin kv' hkv'
  have h32 : ("3:2" : String) ∈ presetRatios.map Prod.fst := by
    simp [presetRatios]
  refine ⟨?_, rfl, ?_, hpos⟩
  · intro r
    match r with
    | none => exact h32
    | some q =>
      by_cases hq : q ≤ 0
      · show (if q ≤ 0 then "3:2"
          else (presetRatios.foldl (ratioStep q) ("3:2", none)).1) ∈ _
        rw [if_pos hq]
        exact h32
      · obtain ⟨v, hmem, _⟩ := hpos q (not_le.mp hq)
        exact List.mem_map_of_mem Prod.fst hmem
  · intro q hq
    show (if q ≤ 0 then "3:2"
      else (presetRatios.foldl (ratioStep q) ("3:2", none)).1) = "3:2"
    rw [if_pos hq]

/-- Witness for C10: a negative input maps to `'3:2'`, and for the
positive input `16/9` the returned preset minimizes the distance. -/
theorem C10_calculateAspectRatio_total_closest_witness :
    ((-2 : ℚ) ≤ 0 ∧ calculateAspectRatio (some (-2)) = "3:2") ∧
    ((0 : ℚ) < 16/9 ∧
      ∃ v : ℚ, (calculateAspectRatio (some (16/9)), v) ∈ presetRatios ∧
        ∀ kv ∈ presetRatios, |16/9 - v| ≤ |16/9 - kv.2|) :=
  ⟨⟨by norm_num,
    C10_calculateAspectRatio_total_closest.2.2.1 (-2) (by norm_num)⟩,
   ⟨by norm_num,
    C10_calculateAspectRatio_total_closest.2.2.2 (16/9) (by norm_num)⟩⟩

/-! ## Polling loops (App.jsx `pollImageStatus` / `pollVideoStatus`) -/

/-- Status payload returned by `/image/status/:jobId`. An absent `images`
field is modelled as `[]` (the guard
`status.images && status.images.length > lastImageCount` skips both). -/
structure ImageStatus where
  status : String
  progress : Nat
  images : List String
  aspect_ratio : Option String
  prompt : Option String
  session_id : Option String
  message : Option String
deriving Repr, DecidableEq

/-- Status payload returned by `/video/status/:jobId`. `video_url = none`
models an absent `video_url`. -/
structure VideoStatus where
  status : String
  progress : Nat
  video_url : Option String
  message : Option String
deriving Repr, DecidableEq

/-- Truthiness of `status.video_url` (absent or empty is falsy). -/
def hasVideoUrl (st : VideoStatus) : Bool :=
  match st.video_url with
  | none => false
  | some u => !(u == "")

/-- Whether one `poll()` body exits the loop (`halt`: job removed, timer
cleared) or schedules another timeout (`again`). -/
inductive PollDecision where
  | halt
  | again
deriving Repr, DecidableEq

/-- Branch structure of `pollImageStatus` after a status is received. -/
def imagePollDecision (st : ImageStatus) : PollDecision :=
  if st.status = "completed" then .halt
  else if st.status = "failed" then .halt
  else .again

/-- Branch structure of `pollVideoStatus` after a status is received: the
completion branch requires `status.status === 'completed' &&
status.video_url`. -/
def videoPollDecision (st : VideoStatus) : PollDecision :=
  if st.status = "completed" ∧ hasVideoUrl st = true then .halt
  else if st.status = "failed" then .halt
  else .again

/-- `maxDurationMs` of `pollImageStatus` (10 minutes). -/
def maxImagePollMs : Nat := 10 * 60 * 1000

/-- `maxDurationMs` of `pollVideoStatus` (20 minutes). -/
def maxVideoPollMs : Nat := 20 * 60 * 1000

/-- One full iteration of `pollImageStatus`'s inner `poll()`: the deadline
guard runs before the status query; a query error (`none`) retries. -/
def pollImageIteration (elapsed : Nat) (result : Option ImageStatus) :
    PollDecision :=
  if maxImagePollMs < elapsed then .halt
  else match result with
    | none => .again
    | some st => imagePollDecision st

/-- One full iteration of `pollVideoStatus`'s inner `poll()`. -/
def pollVideoIteration (elapsed : Nat) (result : Option VideoStatus) :
    PollDecision :=
  if maxVideoPollMs < elapsed then .halt
  else match result with
    | none => .again
    | some st => videoPollDecision st

/-- C4 counterexample: the claim says polling stops exactly when a terminal
status is observed, but a video status with terminal `status = 'completed'`
and no `video_url` makes `pollVideoStatus` schedule another poll. -/
theorem C4_counterexample_completed_without_url :
    videoPollDecision
      { status := "completed", progress := 100, video_url := none,
        message := none } = PollDecision.again ∧
    ({ status := "completed", progress := 100, video_url := none,
        message := none } : VideoStatus).status = "completed" := by
  constructor
  · decide
  · rfl

/-- C4 (amended): within the poll deadline, the image loop stops exactly on
a terminal status and the video loop stops exactly on `'failed'`, or on
`'completed'` together with a truthy `video_url` (a completed video status
without a URL keeps being polled); a query error retries; past the
deadline an iteration halts regardless of the status. -/
theorem C4_poll_until_terminal_amended :
    (∀ (e : Nat) (st : ImageStatus), e ≤ maxImagePollMs →
      (pollImageIteration e (some st) = .halt ↔
        st.status = "completed" ∨ st.status = "failed")) ∧
    (∀ (e : Nat) (st : VideoStatus), e ≤ maxVideoPollMs →
      (pollVideoIteration e (some st) = .halt ↔
        (st.status = "completed" ∧ hasVideoUrl st = true) ∨
          st.status = "failed")) ∧
    (∀ e : Nat, e ≤ maxImagePollMs → pollImageIteration e none = .again) ∧
    (∀ e : Nat, e ≤ maxVideoPollMs → pollVideoIteration e none = .again) ∧
    (∀ (e : Nat) (r : Option ImageStatus), maxImagePollMs < e →
      pollImageIteration e r = .halt) ∧
    (∀ (e : Nat) (r : Option VideoStatus), maxVideoPollMs < e →
      pollVideoIteration e r = .halt) := by
  refine ⟨?_, ?_, ?_, ?_, ?_, ?_⟩
  · intro e st he
    have hd : ¬ maxImagePollMs < e := not_lt.mpr he
    simp only [pollImageIteration, if_neg hd, imagePollDecision]
    by_cases hc : st.status = "completed"
    · simp [hc]
    · by_cases hf : st.status = "failed"
      · simp [hc, hf]
      · simp [hc, hf]
  · intro e st he
    have hd : ¬ maxVideoPollMs < e := not_lt.mpr he
    simp only [pollVideoIteration, if_neg hd, videoPollDecision]
    by_cases hc : st.status = "completed" ∧ hasVideoUrl st = true
    · simp [hc]
    · by_cases hf : st.status = "failed"
      · simp [hc, hf]
      · simp [hc, hf]
  · intro e he
    simp [pollImageIteration, not_lt.mpr he]
  · intro e he
    simp [pollVideoIteration, not_lt.mpr he]
  · intro e r he
    simp [pollImageIteration, he]
  · intro e r he
    simp [pollVideoIteration, he]

/-- Witness for the amended C4 at concrete statuses and elapsed times. -/
theorem C4_poll_until_terminal_amended_witness :
    (pollImageIteration 5000
      (some { status := "completed", progress := 100, images := ["a.png"],
              aspect_ratio := none, prompt := none, session_id := none,
              message := none }) = .halt ↔
      ("completed" : String) = "completed" ∨
        ("completed" : String) = "failed") ∧
    (pollVideoIteration 5000
      (some { status := "processing", progress := 40, video_url := none,
              message := none }) = .halt ↔
      (("processing" : String) = "completed" ∧
        hasVideoUrl { status := "processing", progress := 40,
                      video_url := none, message := none } = true) ∨
        ("processing" : String) = "failed") ∧
    pollImageIteration 5000 none = .again ∧
    pollVideoIteration 5000 none = .again ∧
    pollImageIteration 700000 none = .halt ∧
    pollVideoIteration 1300000 none = .halt := by
  refine ⟨?_, ?_, ?_, ?_, ?_, ?_⟩
  · exact C4_poll_until_terminal_amended.1 5000 _ (by decide)
  · exact C4_poll_until_terminal_amended.2.1 5000 _ (by decide)
  · exact C4_poll_until_terminal_amended.2.2.1 5000 (by decide)
  · exact C4_poll_until_terminal_amended.2.2.2.1 5000 (by decide)
  · exact C4_poll_until_terminal_amended.2.2.2.2.1 700000 none (by decide)
  · exact C4_poll_until_terminal_amended.2.2.2.2.2 1300000 none (by decide)

/-! ## Poll timer bookkeeping (C6) and per-job frame conditions (C7) -/

theorem jsMapGet_eq_none_of_not_has {α β : Type} [BEq α]
    (m : List (α × β)) (k : α) (h : jsMapHas m k = false) :
    jsMapGet m k = none := by
  induction m with
  | nil => rfl
  | cons p m ih =>
    rw [jsMapHas_cons, Bool.or_eq_false_iff] at h
    rw [jsMapGet_cons, if_neg (by simp [h.1]), ih h.2]

/-- `params` stored on an image job. -/
structure ImageJobParams where
  ratio : String
  resolution : String
  count : Nat
deriving Repr, DecidableEq

/-- An entry of the `imageJobs` list in `App.jsx`. -/
structure ImageJob where
  jobId : String
  status : String
  progress : Nat
  prompt : String
  params : ImageJobParams
deriving Repr, DecidableEq

/-- The `imagePollTimeouts` / `videoPollTimeouts` refs: a JS `Map` from
job id to the pending `setTimeout` id. -/
def TimerMap : Type := List (String × Nat)

/-- The cleanup block used on every exit path:
`if (map.has(jobId)) { clearTimeout(map.get(jobId)); map.delete(jobId) }`. -/
def clearPollTimeout (m : TimerMap) (jobId : String) : TimerMap :=
  if jsMapHas m jobId then jsMapDelete m jobId else m

/-- The unmount cleanup effect in `App`: clears every pending timeout and
empties the map. -/
def unmountCleanup (m : TimerMap) : TimerMap :=
  match m with
  | _ => []

/-- How one `poll()` iteration ended: deadline expired before the query, a
query error was caught, or a status was received. -/
inductive PollOutcome (σ : Type) where
  | timedOut
  | queryError
  | gotStatus (st : σ)
deriving Repr, DecidableEq

/-- The `setImageJobs(prev => prev.map(...))` status update. -/
def updateImageJobs (jobs : List ImageJob) (jobId : String)
    (st : ImageStatus) : List ImageJob :=
  jobs.map (fun j =>
    if j.jobId == jobId then
      { j with status := st.status, progress := st.progress }
    else j)

/-- The `setImageJobs(prev => prev.filter(job => job.jobId !== jobId))`
removal. -/
def removeImageJob (jobs : List ImageJob) (jobId : String) :
    List ImageJob :=
  jobs.filter (fun j => !(j.jobId == jobId))

/-- The `setVideoJobs` map-based status update. -/
def updateVideoJobs (jobs : List VideoJob) (jobId : String)
    (st : VideoStatus) : List VideoJob :=
  jobs.map (fun j =>
    if j.jobId == jobId then
      { j with status := st.status, progress := st.progress }
    else j)

/-- The `setVideoJobs(prev => prev.filter(j => j.jobId !== jobId))`
removal. -/
def removeVideoJob (jobs : List VideoJob) (jobId : String) :
    List VideoJob :=
  jobs.filter (fun j => !(j.jobId == jobId))

/-- The `imageJobs` list and `imagePollTimeouts` map touched by one
image-poll iteration. -/
structure ImagePollState where
  jobs : List ImageJob
  timers : TimerMap

/-- The `videoJobs` list and `videoPollTimeouts` map touched by one
video-poll iteration. -/
structure VideoPollState where
  jobs : List VideoJob
  timers : TimerMap

/-- Effect of one `poll()` iteration of `pollImageStatus` on `imageJobs`
and `imagePollTimeouts`; `newTimerId` is the id returned by
`window.setTimeout` when another poll is scheduled. (The gallery update on
new images is modelled separately, see `pollImageRun`.) -/
def imagePollTransition (jobId : String) (s : ImagePollState)
    (outcome : PollOutcome ImageStatus) (newTimerId : Nat) :
    ImagePollState :=
  match outcome with
  | .timedOut =>
      ⟨removeImageJob s.jobs jobId, clearPollTimeout s.timers jobId⟩
  | .queryError => ⟨s.jobs, jsMapSet s.timers jobId newTimerId⟩
  | .gotStatus st =>
      let jobs1 := updateImageJobs s.jobs jobId st
      if st.status = "completed" ∨ st.status = "failed" then
        ⟨removeImageJob jobs1 jobId, clearPollTimeout s.timers jobId⟩
      else ⟨jobs1, jsMapSet s.timers jobId newTimerId⟩

/-- Effect of one `poll()` iteration of `pollVideoStatus` on `videoJobs`
and `videoPollTimeouts`. The completion branch requires a truthy
`video_url`; the completed job is removed inside the `setVideoJobs`
callback. -/
def videoPollTransition (jobId : String) (s : VideoPollState)
    (outcome : PollOutcome VideoStatus) (newTimerId : Nat) :
    VideoPollState :=
  match outcome with
  | .timedOut =>
      ⟨removeVideoJob s.jobs jobId, clearPollTimeout s.timers jobId⟩
  | .queryError => ⟨s.jobs, jsMapSet s.timers jobId newTimerId⟩
  | .gotStatus st =>
      let jobs1 := updateVideoJobs s.jobs jobId st
      if st.status = "completed" ∧ hasVideoUrl st = true then
        ⟨removeVideoJob jobs1 jobId, clearPollTimeout s.timers jobId⟩
      else if st.status = "failed" then
        ⟨removeVideoJob jobs1 jobId, clearPollTimeout s.timers jobId⟩
      else ⟨jobs1, jsMapSet s.timers jobId newTimerId⟩

theorem clearPollTimeout_get_self (m : TimerMap) (k : String) :
    jsMapGet (clearPollTimeout m k) k = none := by
  unfold clearPollTimeout
  by_cases h : jsMapHas m k
  · rw [if_pos h]; exact jsMapGet_delete_self m k
  · rw [if_neg h]
    rw [Bool.not_eq_true] at h
    exact jsMapGet_eq_none_of_not_has m k h

theorem clearPollTimeout_get_ne (m : TimerMap) (k k' : String)
    (hne : k' ≠ k) :
    jsMapGet (clearPollTimeout m k) k' = jsMapGet m k' := by
  unfold clearPollTimeout
  by_cases h : jsMapHas m k
  · rw [if_pos h]; exact jsMapGet_delete_ne m k k' hne
  · rw [if_neg h]

theorem removeImageJob_all (jobs : List ImageJob) (jobId : String) :
    (removeImageJob jobs jobId).all (fun j => !(j.jobId == jobId)) = true := by
  rw [List.all_eq_true]
  intro j hj
  exact (List.mem_filter.mp hj).2

theorem removeVideoJob_all (jobs : List VideoJob) (jobId : String) :
    (removeVideoJob jobs jobId).all (fun j => !(j.jobId == jobId)) = true := by
  rw [List.all_eq_true]
  intro j hj
  exact (List.mem_filter.mp hj).2

theorem filter_idem {α : Type} (p : α → Bool) (l : List α) :
    (l.filter p).filter p = l.filter p := by
  induction l with
  | nil => rfl
  | cons a l ih =>
    by_cases h : p a = true
    · simp [List.filter_cons, h, ih]
    · simp only [Bool.not_eq_true] at h
      simp [List.filter_cons, h, ih]

theorem removeImageJob_update (jobs : List ImageJob) (jobId : String)
    (st : ImageStatus) :
    removeImageJob (updateImageJobs jobs jobId st) jobId =
      removeImageJob jobs jobId := by
  unfold removeImageJob updateImageJobs
  induction jobs with
  | nil => rfl
  | cons j l ih =>
    by_cases h : (j.jobId == jobId) = true
    · have heq : j.jobId = jobId := beq_iff_eq.mp h
      simpa [List.filter_cons, heq] using ih
    · simp only [Bool.not_eq_true] at h
      have hne : j.jobId ≠ jobId := ne_of_beq_false h
      simpa [List.filter_cons, hne] using ih

theorem removeVideoJob_update (jobs : List VideoJob) (jobId : String)
    (st : VideoStatus) :
    removeVideoJob (updateVideoJobs jobs jobId st) jobId =
      removeVideoJob jobs jobId := by
  unfold removeVideoJob updateVideoJobs
  induction jobs with
  | nil => rfl
  | cons j l ih =>
    by_cases h : (j.jobId == jobId) = true
    · have heq : j.jobId = jobId := beq_iff_eq.mp h
      simpa [List.filter_cons, heq] using ih
    · simp only [Bool.not_eq_true] at h
      have hne : j.jobId ≠ jobId := ne_of_beq_false h
      simpa [List.filter_cons, hne] using ih

/-- C6: on every exit path of a job's polling loop — completion, failure,
poll-deadline expiry — the job's entry in the corresponding poll-timeout
map is cleared while the job leaves the job list, and the unmount cleanup
empties the map entirely. -/
theorem C6_timer_cleared_on_every_exit :
    (∀ (jobId : String) (s : ImagePollState) (tid : Nat),
      jsMapGet (imagePollTransition jobId s .timedOut tid).timers jobId =
        none ∧
      (imagePollTransition jobId s .timedOut tid).jobs.all
        (fun j => !(j.jobId == jobId)) = true) ∧
    (∀ (jobId : String) (s : ImagePollState) (tid : Nat) (st : ImageStatus),
      st.status = "completed" ∨ st.status = "failed" →
      jsMapGet (imagePollTransition jobId s (.gotStatus st) tid).timers
        jobId = none ∧
      (imagePollTransition jobId s (.gotStatus st) tid).jobs.all
        (fun j => !(j.jobId == jobId)) = true) ∧
    (∀ (jobId : String) (s : VideoPollState) (tid : Nat),
      jsMapGet (videoPollTransition jobId s .timedOut tid).timers jobId =
        none ∧
      (videoPollTransition jobId s .timedOut tid).jobs.all
        (fun j => !(j.jobId == jobId)) = true) ∧
    (∀ (jobId : String) (s : VideoPollState) (tid : Nat) (st : VideoStatus),
      (st.status = "completed" ∧ hasVideoUrl st = true) ∨
        st.status = "failed" →
      jsMapGet (videoPollTransition jobId s (.gotStatus st) tid).timers
        jobId = none ∧
      (videoPollTransition jobId s (.gotStatus st) tid).jobs.all
        (fun j => !(j.jobId == jobId)) = true) ∧
    (∀ (m : TimerMap) (k : String),
      jsMapGet (unmountCleanup m) k = none) := by
  refine ⟨?_, ?_, ?_, ?_, ?_⟩
  · intro jobId s tid
    exact ⟨clearPollTimeout_get_self s.timers jobId,
      removeImageJob_all s.jobs jobId⟩
  · intro jobId s tid st h
    simp only [imagePollTransition, if_pos h]
    exact ⟨clearPollTimeout_get_self s.timers jobId,
      removeImageJob_all _ jobId⟩
  · intro jobId s tid
    exact ⟨clearPollTimeout_get_self s.timers jobId,
      removeVideoJob_all s.jobs jobId⟩
  · intro jobId s tid st h
    rcases h with h | h
    · simp only [videoPollTransition, if_pos h]
      exact ⟨clearPollTimeout_get_self s.timers jobId,
        removeVideoJob_all _ jobId⟩
    · by_cases hc : st.status = "completed" ∧ hasVideoUrl st = true
      · simp only [videoPollTransition, if_pos hc]
        exact ⟨clearPollTimeout_get_self s.timers jobId,
          removeVideoJob_all _ jobId⟩
      · simp only [videoPollTransition, if_neg hc, if_pos h]
        exact ⟨clearPollTimeout_get_self s.timers jobId,
          removeVideoJob_all _ jobId⟩
  · intro m k
    rfl

/-- Sample data for the C6/C7 witnesses. -/
def imgJobA : ImageJob :=
  ⟨"a", "processing", 10, "pa", ⟨"3:2", "2K", 2⟩⟩

/-- Sample data for the C6/C7 witnesses. -/
def imgJobB : ImageJob :=
  ⟨"b", "pending", 0, "pb", ⟨"1:1", "1K", 1⟩⟩

/-- Sample image-poll state for the C6/C7 witnesses. -/
def sampleImageState : ImagePollState :=
  ⟨[imgJobA, imgJobB], [("a", 11), ("b", 22)]⟩

/-- Sample video job for the C6/C7 witnesses. -/
def vidJobA : VideoJob :=
  ⟨"va", "processing", 10, "pv", ⟨"text2vid", "16:9", "720p", some "8"⟩,
    false⟩

/-- Sample video-poll state for the C6/C7 witnesses. -/
def sampleVideoState : VideoPollState := ⟨[vidJobA], [("va", 7)]⟩

/-- A completed image status used in witnesses. -/
def sampleCompletedImageStatus : ImageStatus :=
  ⟨"completed", 100, ["x.png"], some "3:2", some "pa", none, none⟩

/-- A failed video status used in witnesses. -/
def sampleFailedVideoStatus : VideoStatus :=
  ⟨"failed", 0, none, some "boom"⟩

/-- Witness for C6 at concrete states and statuses. -/
theorem C6_timer_cleared_on_every_exit_witness :
    (jsMapGet (imagePollTransition "a" sampleImageState
        (.gotStatus sampleCompletedImageStatus) 99).timers "a" = none ∧
      (imagePollTransition "a" sampleImageState
        (.gotStatus sampleCompletedImageStatus) 99).jobs.all
        (fun j => !(j.jobId == "a")) = true) ∧
    (jsMapGet (videoPollTransition "va" sampleVideoState
        (.gotStatus sampleFailedVideoStatus) 99).timers "va" = none ∧
      (videoPollTransition "va" sampleVideoState
        (.gotStatus sampleFailedVideoStatus) 99).jobs.all
        (fun j => !(j.jobId == "va")) = true) :=
  ⟨C6_timer_cleared_on_every_exit.2.1 "a" sampleImageState 99
      sampleCompletedImageStatus (Or.inl rfl),
   C6_timer_cleared_on_every_exit.2.2.2.1 "va" sampleVideoState 99
      sampleFailedVideoStatus (Or.inr rfl)⟩

/-- C7: a poll outcome for one job leaves every other job alone: the job
list restricted to other job ids is unchanged, timer entries of other job
ids are unchanged, and a query error leaves the job list entirely
unchanged (only that job's timer is re-armed). -/
theorem C7_poll_outcome_frame :
    (∀ (jobId : String) (s : ImagePollState)
      (out : PollOutcome ImageStatus) (tid : Nat),
      removeImageJob (imagePollTransition jobId s out tid).jobs jobId =
        removeImageJob s.jobs jobId ∧
      (∀ k : String, k ≠ jobId →
        jsMapGet (imagePollTransition jobId s out tid).timers k =
          jsMapGet s.timers k) ∧
      (imagePollTransition jobId s .queryError tid).jobs = s.jobs) ∧
    (∀ (jobId : String) (s : VideoPollState)
      (out : PollOutcome VideoStatus) (tid : Nat),
      removeVideoJob (videoPollTransition jobId s out tid).jobs jobId =
        removeVideoJob s.jobs jobId ∧
      (∀ k : String, k ≠ jobId →
        jsMapGet (videoPollTransition jobId s out tid).timers k =
          jsMapGet s.timers k) ∧
      (videoPollTransition jobId s .queryError tid).jobs = s.jobs) := by
  constructor
  · intro jobId s out tid
    refine ⟨?_, ?_, rfl⟩
    · match out with
      | .timedOut => exact filter_idem _ s.jobs
      | .queryError => rfl
      | .gotStatus st =>
        by_cases h : st.status = "completed" ∨ st.status = "failed"
        · simp only [imagePollTransition, if_pos h, removeImageJob] at *
          rw [filter_idem]
          exact removeImageJob_update s.jobs jobId st
        · simp only [imagePollTransition, if_neg h]
          exact removeImageJob_update s.jobs jobId st
    · intro k hk
      match out with
      | .timedOut => exact clearPollTimeout_get_ne s.timers jobId k hk
      | .queryError => exact jsMapGet_set_ne s.timers jobId k tid hk
      | .gotStatus st =>
        by_cases h : st.status = "completed" ∨ st.status = "failed"
        · simp only [imagePollTransition, if_pos h]
          exact clearPollTimeout_get_ne s.timers jobId k hk
        · simp only [imagePollTransition, if_neg h]
          exact jsMapGet_set_ne s.timers jobId k tid hk
  · intro jobId s out tid
    refine ⟨?_, ?_, rfl⟩
    · match out with
      | .timedOut => exact filter_idem _ s.jobs
      | .queryError => rfl
      | .gotStatus st =>
        by_cases h1 : st.status = "completed" ∧ hasVideoUrl st = true
        · simp only [videoPollTransition, if_pos h1, removeVideoJob] at *
          rw [filter_idem]
          exact removeVideoJob_update s.jobs jobId st
        · by_cases h2 : st.status = "failed"
          · simp only [videoPollTransition, if_neg h1, if_pos h2,
              removeVideoJob] at *
            rw [filter_idem]
            exact removeVideoJob_update s.jobs jobId st
          · simp only [videoPollTransition, if_neg h1, if_neg h2]
            exact removeVideoJob_update s.jobs jobId st
    · intro k hk
      match out with
      | .timedOut => exact clearPollTimeout_get_ne s.timers jobId k hk
      | .queryError => exact jsMapGet_set_ne s.timers jobId k tid hk
      | .gotStatus st =>
        by_cases h1 : st.status = "completed" ∧ hasVideoUrl st = true
        · simp only [videoPollTransition, if_pos h1]
          exact clearPollTimeout_get_ne s.timers jobId k hk
        · by_cases h2 : st.status = "failed"
          · simp only [videoPollTransition, if_neg h1, if_pos h2]
            exact clearPollTimeout_get_ne s.timers jobId k hk
          · simp only [videoPollTransition, if_neg h1, if_neg h2]
            exact jsMapGet_set_ne s.timers jobId k tid hk

/-- Witness for C7: polling job `a` (error outcome and completed outcome)
leaves job `b`'s entry and timer untouched. -/
theorem C7_poll_outcome_frame_witness :
    (removeImageJob (imagePollTransition "a" sampleImageState
        (.gotStatus sampleCompletedImageStatus) 99).jobs "a" =
      removeImageJob sampleImageState.jobs "a") ∧
    (jsMapGet (imagePollTransition "a" sampleImageState
        (.gotStatus sampleCompletedImageStatus) 99).timers "b" =
      jsMapGet sampleImageState.timers "b") ∧
    ((imagePollTransition "a" sampleImageState .queryError 99).jobs =
      sampleImageState.jobs) :=
  ⟨(C7_poll_outcome_frame.1 "a" sampleImageState
      (.gotStatus sampleCompletedImageStatus) 99).1,
   (C7_poll_outcome_frame.1 "a" sampleImageState
      (.gotStatus sampleCompletedImageStatus) 99).2.1 "b" (by decide),
   (C7_poll_outcome_frame.1 "a" sampleImageState .queryError 99).2.2⟩

/-! ## Video duration / resolution coupling (VideoPanel.jsx, App.jsx) -/

/-- `VID_DURATIONS_720P` from `VideoPanel.jsx` (option values). -/
def VID_DURATIONS_720P : List String := ["4", "6", "8"]

/-- `VID_DURATIONS_HIGH_RES` from `VideoPanel.jsx` (option values). -/
def VID_DURATIONS_HIGH_RES : List String := ["8"]

/-- `durationOptions` computed in `VideoPanel`. -/
def durationOptions (resolution : String) : List String :=
  if resolution = "720p" then VID_DURATIONS_720P else VID_DURATIONS_HIGH_RES

/-- The `disabled` prop `VideoPanel` passes to the duration `Select`
(`disabled={resolution !== '720p'}`). -/
def videoPanelDurationDisabledProp (resolution : String) : Bool :=
  !(resolution == "720p")

/-- The attributes of the `<select>` element rendered by the shared
`Select` component (`components/common/Select.jsx`). -/
structure SelectRenderedProps where
  value : String
  options : List String
  disabled : Bool

/-- The `<select>` rendered for the duration picker: `Select.jsx`
destructures only `label`, `value`, `onChange`, `options`, `placeholder`
and `className`, so the `disabled` prop `VideoPanel` passes is silently
dropped and the element never carries a `disabled` attribute. -/
def renderedDurationSelect (resolution duration : String) :
    SelectRenderedProps :=
  { value := duration, options := durationOptions resolution,
    disabled := false }

/-- The `vidRes` / `vidDuration` slice of `App`'s state. -/
structure VideoFormState where
  vidRes : String
  vidDuration : String
deriving Repr, DecidableEq

/-- `useState('720p')` and `useState('8')`. -/
def videoFormStart : VideoFormState := ⟨"720p", "8"⟩

/-- User events on the video form. -/
inductive VideoFormEvent where
  | setRes (r : String)
  | setDuration (d : String)

/-- Transition: `setRes` models `onResolutionChange` followed by the
`useEffect([vidRes])` that resets `vidDuration` to `'8'` whenever the new
resolution is not `'720p'`; `setDuration` models a selection in the
duration `Select`, which only offers the `durationOptions` values (the
placeholder `<option>` is itself disabled). -/
def videoFormStep (s : VideoFormState) (e : VideoFormEvent) :
    VideoFormState :=
  match e with
  | .setRes r => if r ≠ "720p" then ⟨r, "8"⟩ else ⟨r, s.vidDuration⟩
  | .setDuration d =>
      if (durationOptions s.vidRes).contains d then ⟨s.vidRes, d⟩ else s

/-- The form state after a sequence of user events. -/
def runVideoForm (events : List VideoFormEvent) : VideoFormState :=
  events.foldl videoFormStep videoFormStart

/-- The `duration_seconds` field `handleGenerateVideo` sends to
`generateVideo`. -/
def submittedDurationSeconds (s : VideoFormState) : String :=
  s.vidDuration

theorem videoFormStep_inv (s : VideoFormState) (e : VideoFormEvent)
    (h : s.vidRes ≠ "720p" → s.vidDuration = "8") :
    (videoFormStep s e).vidRes ≠ "720p" →
    (videoFormStep s e).vidDuration = "8" := by
  match e with
  | .setRes r =>
    by_cases hr : r ≠ "720p"
    · simp [videoFormStep, hr]
    · simp only [videoFormStep, if_neg hr]
      rw [not_not] at hr
      intro hcon
      exact absurd hr hcon
  | .setDuration d =>
    by_cases hd : (durationOptions s.vidRes).contains d = true
    · simp only [videoFormStep, if_pos hd]
      intro hres
      have : durationOptions s.vidRes = ["8"] := by
        unfold durationOptions
        rw [if_neg hres]
        rfl
      rw [this] at hd
      simpa using hd
    · simp only [videoFormStep, if_neg hd]
      exact h

theorem runVideoForm_inv (events : List VideoFormEvent) :
    (runVideoForm events).vidRes ≠ "720p" →
    (runVideoForm events).vidDuration = "8" := by
  unfold runVideoForm
  have : ∀ (es : List VideoFormEvent) (s : VideoFormState),
      (s.vidRes ≠ "720p" → s.vidDuration = "8") →
      ((es.foldl videoFormStep s).vidRes ≠ "720p" →
        (es.foldl videoFormStep s).vidDuration = "8") := by
    intro es
    induction es with
    | nil => intro s h; exact h
    | cons e es ih =>
      intro s h
      exact ih (videoFormStep s e) (videoFormStep_inv s e h)
  exact this events videoFormStart (fun hcon => absurd rfl hcon)

/-- C8: whenever the selected video resolution is not `'720p'`, the
duration submitted with a generation request is `'8'`: the
`useEffect([vidRes])` resets it and the duration selector offers only the
8-second option for `'1080p'` and `'4k'`. `VideoPanel` does pass
`disabled={resolution !== '720p'}`, but the shared `Select` component
drops that prop, so the rendered element is never actually disabled (the
claim's parenthetical "(and is disabled)" fails in the rendered DOM). -/
theorem C8_highres_duration_always_8 :
    (∀ events : List VideoFormEvent,
      (runVideoForm events).vidRes ≠ "720p" →
      submittedDurationSeconds (runVideoForm events) = "8") ∧
    durationOptions "1080p" = ["8"] ∧
    durationOptions "4k" = ["8"] ∧
    videoPanelDurationDisabledProp "1080p" = true ∧
    videoPanelDurationDisabledProp "4k" = true ∧
    (∀ r d : String, (renderedDurationSelect r d).disabled = false) := by
  refine ⟨?_, rfl, rfl, rfl, rfl, fun r d => rfl⟩
  intro events h
  exact runVideoForm_inv events h

/-- Witness for C8: after the user switches the resolution to `'1080p'`
(and even tampers with the duration select), the submitted duration is
`'8'`, while the rendered select is still not disabled. -/
theorem C8_highres_duration_always_8_witness :
    ((runVideoForm [.setRes "1080p", .setDuration "6"]).vidRes ≠ "720p" →
      submittedDurationSeconds
        (runVideoForm [.setRes "1080p", .setDuration "6"]) = "8") ∧
    (runVideoForm [.setRes "1080p", .setDuration "6"]).vidRes = "1080p" ∧
    (renderedDurationSelect "1080p" "8").disabled = false :=
  ⟨C8_highres_duration_always_8.1 [.setRes "1080p", .setDuration "6"],
   by decide,
   C8_highres_duration_always_8.2.2.2.2.2 "1080p" "8"⟩

/-! ## Incremental gallery updates from image polling (C3) -/

/-- `API_BASE` from `services/api.js`. -/
def API_BASE : String := "/api"

/-- `getImageUrl` from `services/api.js`. -/
def getImageUrl (filename : String) : String :=
  API_BASE ++ "/image/" ++ filename

/-- A gallery image entry, as built by `pollImageStatus` and as stored in
day groups by `normalizeDayItems`. -/
structure GalleryImageItem where
  id : String
  url : String
  filename : String
  ratio : String
  prompt : String
  createdAt : Nat
deriving Repr, DecidableEq

/-- One element of the `newImages` array of `pollImageStatus`, for the
image at global index `idx` of `status.images`
(`id = `${jobId}-${idx}-${filename}``). -/
def mkImageEntry (jobId : String) (idx : Nat) (filename : String)
    (st : ImageStatus) (createdAt : Nat) : GalleryImageItem :=
  { id := jobId ++ "-" ++ toString idx ++ "-" ++ filename,
    url := getImageUrl filename,
    filename := filename,
    ratio := st.aspect_ratio.getD "3:2",
    prompt := st.prompt.getD "",
    createdAt := createdAt }

/-- The `status.images.slice(lastImageCount).map(...)` array of one poll. -/
def newImagesFrom (jobId : String) (lastCount : Nat) (st : ImageStatus)
    (createdAt : Nat) : List GalleryImageItem :=
  (st.images.drop lastCount).enum.map
    (fun p => mkImageEntry jobId (lastCount + p.1) p.2 st createdAt)

/-- One poll's effect on `lastImageCount` and the gallery entries added
for this job (the guard is
`status.images && status.images.length > lastImageCount`). -/
def pollImageStep (jobId : String) (lastCount : Nat) (st : ImageStatus)
    (createdAt : Nat) : Nat × List GalleryImageItem :=
  if lastCount < st.images.length then
    (st.images.length, newImagesFrom jobId lastCount st createdAt)
  else (lastCount, [])

/-- Folding the successive polls of one job (each with the status received
and the `new Date()` timestamp of that poll): the final `lastImageCount`
and the concatenation of all entries the job added to the gallery, in the
order they were added. -/
def pollImageRun (jobId : String) (polls : List (ImageStatus × Nat)) :
    Nat × List GalleryImageItem :=
  polls.foldl
    (fun acc p =>
      let r := pollImageStep jobId acc.1 p.1 p.2
      (r.1, acc.2 ++ r.2))
    (0, [])

/-- The backend's `status.images` list only ever grows by appending: every
poll's list is a prefix of the next poll's list. -/
def imagesChain : List (ImageStatus × Nat) → Bool
  | [] => true
  | [_] => true
  | p :: q :: rest =>
      p.1.images.isPrefixOf q.1.images && imagesChain (q :: rest)

theorem isPrefixOf_iff_exists {α : Type} [BEq α] [LawfulBEq α] :
    ∀ (l1 l2 : List α), l1.isPrefixOf l2 = true ↔ ∃ t, l1 ++ t = l2 := by
  intro l1
  induction l1 with
  | nil => intro l2; simp [List.isPrefixOf]
  | cons a l1 ih =>
    intro l2
    match l2 with
    | [] => simp [List.isPrefixOf]
    | b :: l2 =>
      simp only [List.isPrefixOf, Bool.and_eq_true, beq_iff_eq, ih l2]
      constructor
      · rintro ⟨hab, t, ht⟩
        exact ⟨t, by rw [List.cons_append, hab, ht]⟩
      · rintro ⟨t, ht⟩
        rw [List.cons_append] at ht
        injection ht with h1 h2
        exact ⟨h1, t, h2⟩

theorem pollFold_acc (jobId : String) (polls : List (ImageStatus × Nat)) :
    ∀ (c : Nat) (acc : List GalleryImageItem),
      polls.foldl
        (fun acc p =>
          let r := pollImageStep jobId acc.1 p.1 p.2
          (r.1, acc.2 ++ r.2)) (c, acc) =
      ((polls.foldl
        (fun acc p =>
          let r := pollImageStep jobId acc.1 p.1 p.2
          (r.1, acc.2 ++ r.2)) (c, [])).1,
        acc ++ (polls.foldl
        (fun acc p =>
          let r := pollImageStep jobId acc.1 p.1 p.2
          (r.1, acc.2 ++ r.2)) (c, [])).2) := by
  induction polls with
  | nil => intro c acc; simp
  | cons p ps ih =>
    intro c acc
    simp only [List.foldl_cons]
    rw [ih (pollImageStep jobId c p.1 p.2).1
        (acc ++ (pollImageStep jobId c p.1 p.2).2),
      ih (pollImageStep jobId c p.1 p.2).1
        ([] ++ (pollImageStep jobId c p.1 p.2).2)]
    simp [List.append_assoc]

theorem pollImageStep_spec (jobId : String) (c : Nat) (st : ImageStatus)
    (t : Nat) (hc : c ≤ st.images.length) :
    (pollImageStep jobId c st t).1 = st.images.length ∧
    (pollImageStep jobId c st t).2.map (fun e => e.filename) =
      st.images.drop c := by
  unfold pollImageStep
  by_cases h : c < st.images.length
  · rw [if_pos h]
    refine ⟨rfl, ?_⟩
    unfold newImagesFrom
    rw [List.map_map]
    have : ((fun e => e.filename) ∘
        (fun p => mkImageEntry jobId (c + p.1) p.2 st t)) =
        (fun p : Nat × String => p.2) := rfl
    rw [this, List.enum_map_snd]
  · rw [if_neg h]
    have hce : c = st.images.length := le_antisymm hc (not_lt.mp h)
    refine ⟨hce, ?_⟩
    rw [hce, List.drop_length]
    rfl

/-- The fold function of `pollImageRun`, named for the proofs. -/
def pollImageF (jobId : String) :
    (Nat × List GalleryImageItem) → (ImageStatus × Nat) →
      (Nat × List GalleryImageItem) :=
  fun acc p =>
    let r := pollImageStep jobId acc.1 p.1 p.2
    (r.1, acc.2 ++ r.2)

theorem pollImageRun_eq (jobId : String)
    (polls : List (ImageStatus × Nat)) :
    pollImageRun jobId polls = polls.foldl (pollImageF jobId) (0, []) :=
  rfl

theorem pollImageF_acc (jobId : String) (polls : List (ImageStatus × Nat))
    (c : Nat) (acc : List GalleryImageItem) :
    polls.foldl (pollImageF jobId) (c, acc) =
      ((polls.foldl (pollImageF jobId) (c, [])).1,
        acc ++ (polls.foldl (pollImageF jobId) (c, [])).2) :=
  pollFold_acc jobId polls c acc

theorem chain_last_prefix :
    ∀ (ps : List (ImageStatus × Nat)) (q : ImageStatus × Nat),
      imagesChain (q :: ps) = true →
      ∃ last, (q :: ps).getLast? = some last ∧
        ∃ t, q.1.images ++ t = last.1.images := by
  intro ps
  induction ps with
  | nil =>
    intro q _
    exact ⟨q, rfl, [], List.append_nil _⟩
  | cons r ps ih =>
    intro q h
    rw [show imagesChain (q :: r :: ps) =
      (q.1.images.isPrefixOf r.1.images && imagesChain (r :: ps)) from rfl,
      Bool.and_eq_true] at h
    obtain ⟨last, hlast, t2, ht2⟩ := ih r h.2
    obtain ⟨t1, ht1⟩ := (isPrefixOf_iff_exists _ _).mp h.1
    refine ⟨last, ?_, t1 ++ t2, ?_⟩
    · rw [List.getLast?_cons_cons]
      exact hlast
    · rw [← List.append_assoc, ht1, ht2]

theorem pollImageFold_spec (jobId : String) :
    ∀ (ps : List (ImageStatus × Nat)) (p0 : ImageStatus × Nat) (c : Nat),
      imagesChain (p0 :: ps) = true → c ≤ p0.1.images.length →
      ∃ last, (p0 :: ps).getLast? = some last ∧
        ((p0 :: ps).foldl (pollImageF jobId) (c, [])).1 =
          last.1.images.length ∧
        ((p0 :: ps).foldl (pollImageF jobId) (c, [])).2.map
          (fun e => e.filename) = last.1.images.drop c := by
  intro ps
  induction ps with
  | nil =>
    intro p0 c _ hc
    obtain ⟨h1, h2⟩ := pollImageStep_spec jobId c p0.1 p0.2 hc
    refine ⟨p0, rfl, ?_, ?_⟩
    · show (pollImageF jobId (c, []) p0).1 = _
      simp only [pollImageF]
      exact h1
    · show (pollImageF jobId (c, []) p0).2.map _ = _
      simp only [pollImageF, List.nil_append]
      exact h2
  | cons q ps ih =>
    intro p0 c hchain hc
    rw [show imagesChain (p0 :: q :: ps) =
      (p0.1.images.isPrefixOf q.1.images && imagesChain (q :: ps)) from rfl,
      Bool.and_eq_true] at hchain
    obtain ⟨tpq, htpq⟩ := (isPrefixOf_iff_exists _ _).mp hchain.1
    have hlen : p0.1.images.length ≤ q.1.images.length := by
      rw [← htpq, List.length_append]
      omega
    obtain ⟨h1, h2⟩ := pollImageStep_spec jobId c p0.1 p0.2 hc
    obtain ⟨last, hlast, hcount, hmap⟩ :=
      ih q p0.1.images.length hchain.2 hlen
    obtain ⟨last', hlast', tql, htql⟩ := chain_last_prefix ps q hchain.2
    have hsame : last' = last := by
      have : some last' = some last := hlast'.symm.trans hlast
      exact Option.some.inj this
    subst hsame
    have hplast : p0.1.images ++ (tpq ++ tql) = last'.1.images := by
      rw [← List.append_assoc, htpq, htql]
    have hfold : (p0 :: q :: ps).foldl (pollImageF jobId) (c, []) =
        (((q :: ps).foldl (pollImageF jobId)
            (p0.1.images.length, [])).1,
          (pollImageStep jobId c p0.1 p0.2).2 ++
            ((q :: ps).foldl (pollImageF jobId)
              (p0.1.images.length, [])).2) := by
      rw [List.foldl_cons]
      have hstep : pollImageF jobId (c, []) p0 =
          (p0.1.images.length, (pollImageStep jobId c p0.1 p0.2).2) := by
        simp only [pollImageF, List.nil_append]
        rw [h1]
      rw [hstep, pollImageF_acc]
    refine ⟨last', ?_, ?_, ?_⟩
    · rw [List.getLast?_cons_cons]
      exact hlast
    · rw [hfold]
      exact hcount
    · rw [hfold]
      simp only [List.map_append]
      rw [h2, hmap]
      have hdc : last'.1.images.drop c =
          p0.1.images.drop c ++ (tpq ++ tql) := by
        rw [← hplast, List.drop_append_eq_append_drop,
          Nat.sub_eq_zero_of_le hc, List.drop_zero]
      have hdp : last'.1.images.drop p0.1.images.length = tpq ++ tql := by
        rw [← hplast, List.drop_append_eq_append_drop, List.drop_length,
          Nat.sub_self, List.drop_zero, List.nil_append]
      rw [hdc, hdp]

/-- C3: the gallery contribution of one image job is append-only (later
polls only extend the entry list), and — when the backend's `images`
lists form a prefix chain — the entries added across the polls are exactly
the final status's images, one entry per image in production order, so a
run whose last poll observes `completed` has contributed exactly
`status.images.length` entries. -/
theorem C3_incremental_gallery_append_only :
    (∀ (jobId : String) (polls more : List (ImageStatus × Nat)),
      ∃ t, (pollImageRun jobId polls).2 ++ t =
        (pollImageRun jobId (polls ++ more)).2) ∧
    (∀ (jobId : String) (polls : List (ImageStatus × Nat))
      (last : ImageStatus × Nat),
      imagesChain polls = true → polls.getLast? = some last →
      (pollImageRun jobId polls).2.map (fun e => e.filename) =
        last.1.images ∧
      (pollImageRun jobId polls).2.length = last.1.images.length) := by
  constructor
  · intro jobId polls more
    have hacc : ∀ (start : Nat × List GalleryImageItem),
        more.foldl (pollImageF jobId) start =
          ((more.foldl (pollImageF jobId) (start.1, [])).1,
            start.2 ++ (more.foldl (pollImageF jobId) (start.1, [])).2) := by
      intro start
      have h := pollImageF_acc jobId more start.1 start.2
      rw [Prod.mk.eta] at h
      exact h
    rw [pollImageRun_eq, pollImageRun_eq, List.foldl_append,
      hacc (polls.foldl (pollImageF jobId) (0, []))]
    exact ⟨(more.foldl (pollImageF jobId)
      ((polls.foldl (pollImageF jobId) (0, [])).1, [])).2, rfl⟩
  · intro jobId polls last hchain hlast
    match polls with
    | [] => exact absurd hlast (by simp)
    | p0 :: ps =>
      obtain ⟨last2, hlast2, hcount, hmap⟩ :=
        pollImageFold_spec jobId ps p0 0 hchain (Nat.zero_le _)
      have hsame : last2 = last := by
        have : some last2 = some last := hlast2.symm.trans hlast
        exact Option.some.inj this
      subst hsame
      rw [List.drop_zero] at hmap
      refine ⟨hmap, ?_⟩
      have : ((p0 :: ps).foldl (pollImageF jobId) (0, [])).2.map
          (fun e => e.filename) = last2.1.images := hmap
      have hlenmap := congrArg List.length this
      rw [List.length_map] at hlenmap
      exact hlenmap

/-- First poll status for the C3 witness. -/
def imgSt1 : ImageStatus :=
  ⟨"processing", 33, ["a.png"], some "3:2", some "p", none, none⟩

/-- Second poll status for the C3 witness. -/
def imgSt2 : ImageStatus :=
  ⟨"processing", 66, ["a.png", "b.png"], some "3:2", some "p", none, none⟩

/-- Final (completed) poll status for the C3 witness. -/
def imgSt3 : ImageStatus :=
  ⟨"completed", 100, ["a.png", "b.png", "c.png"], some "3:2", some "p",
    some "s1", none⟩

/-- A three-poll run for the C3 witness. -/
def samplePolls : List (ImageStatus × Nat) :=
  [(imgSt1, 1), (imgSt2, 2), (imgSt3, 3)]

/-- Witness for C3 at a concrete three-poll run whose last status is
`completed` with three images. -/
theorem C3_incremental_gallery_append_only_witness :
    (pollImageRun "job1" samplePolls).2.map (fun e => e.filename) =
      imgSt3.images ∧
    (pollImageRun "job1" samplePolls).2.length = imgSt3.images.length :=
  C3_incremental_gallery_append_only.2 "job1" samplePolls (imgSt3, 3)
    (by decide) (by decide)

/-! ## Gallery day-group normalization and merging (App.jsx, C9) -/

/-- A raw image item as it reaches `normalizeDayItems` (library payload or
realtime entry). `""` models a missing/falsy string field; `none` models a
missing `createdAt`/`created_at` pair (the code then uses
`new Date().toISOString()`, the `now` parameter below). -/
structure RawImageItem where
  id : String
  url : String
  filename : String
  ratio : String
  prompt : String
  createdAt : Option Nat
deriving Repr, DecidableEq

/-- The record `normalizeDayItems` stores for one raw item
(`id: item.id || filename`, `ratio: item.ratio || '3:2'`,
`prompt: item.prompt || ''`, `createdAt: item.createdAt || item.created_at
|| new Date().toISOString()`). -/
def normItem (now : Nat) (item : RawImageItem) : GalleryImageItem :=
  { id := if item.id = "" then item.filename else item.id,
    url := item.url,
    filename := item.filename,
    ratio := if item.ratio = "" then "3:2" else item.ratio,
    prompt := item.prompt,
    createdAt := item.createdAt.getD now }

/-- The `itemMap` of `normalizeDayItems`: a JS `Map` keyed by filename;
items with a falsy filename are skipped (`if (!filename) return`). -/
def buildItemMap (now : Nat) (items : List RawImageItem) :
    List (String × GalleryImageItem) :=
  items.foldl
    (fun m item =>
      if item.filename = "" then m
      else jsMapSet m item.filename (normItem now item))
    []

/-- The sort comparator `(a, b) => new Date(b.createdAt).getTime() -
new Date(a.createdAt).getTime()` as a relation: `a` may stay before `b`
когда `a.createdAt ≥ b.createdAt`. `List.insertionSort` with this relation
is the stable descending sort mandated by ES2019. -/
def itemGE (a b : GalleryImageItem) : Prop :=
  b.createdAt ≤ a.createdAt

instance : DecidableRel itemGE :=
  fun a b => Nat.decLe b.createdAt a.createdAt

instance : IsTotal GalleryImageItem itemGE :=
  ⟨fun a b => Nat.le_total b.createdAt a.createdAt⟩

instance : IsTrans GalleryImageItem itemGE :=
  ⟨fun _ _ _ hab hbc => le_trans hbc hab⟩

/-- `normalizeDayItems` (App.jsx): dedupe by filename (last occurrence's
value, first-occurrence insertion order), then stable-sort by `createdAt`
descending. -/
def normalizeDayItems (now : Nat) (items : List RawImageItem) :
    List GalleryImageItem :=
  List.insertionSort itemGE (jsMapValues (buildItemMap now items))

/-- Fields of a stored gallery item that the normalization defaults make
non-empty; on such items `normItem ∘ galleryToRaw` is the identity. -/
def ItemWF (g : GalleryImageItem) : Prop :=
  g.filename ≠ "" ∧ g.id ≠ "" ∧ g.ratio ≠ ""

/-- Reading a stored (normalized) item back as a raw item, as happens when
`mergeImageDayGroups` re-feeds `existing.items` to `normalizeDayItems`. -/
def galleryToRaw (g : GalleryImageItem) : RawImageItem :=
  ⟨g.id, g.url, g.filename, g.ratio, g.prompt, some g.createdAt⟩

theorem normItem_galleryToRaw (now : Nat) (g : GalleryImageItem)
    (h : ItemWF g) : normItem now (galleryToRaw g) = g := by
  obtain ⟨h1, h2, h3⟩ := h
  simp [normItem, galleryToRaw, h2, h3]

theorem normItem_wf (now : Nat) (item : RawImageItem)
    (h : item.filename ≠ "") : ItemWF (normItem now item) := by
  refine ⟨h, ?_, ?_⟩
  · by_cases hid : item.id = ""
    · simp [normItem, hid, h]
    · simp [normItem, hid]
  · by_cases hr : item.ratio = ""
    · simp [normItem, hr]
    · simp [normItem, hr]

theorem jsMapHas_set {α β : Type} [BEq α] [LawfulBEq α]
    (m : List (α × β)) (k k' : α) (v : β) :
    jsMapHas (jsMapSet m k v) k' = ((k == k') || jsMapHas m k') := by
  unfold jsMapSet
  by_cases h : jsMapHas m k
  · rw [if_pos h]
    by_cases hkk : (k == k') = true
    · have : k = k' := beq_iff_eq.mp hkk
      subst this
      rw [hkk, Bool.true_or]
      induction m with
      | nil => simp [jsMapHas] at h
      | cons p m ih =>
        by_cases hp : (p.1 == k) = true
        · simp [jsMapHas_cons, hp]
        · rw [Bool.not_eq_true] at hp
          rw [jsMapHas_cons, hp, Bool.false_or] at h
          simpa [jsMapHas_cons, hp] using ih h
    · rw [Bool.not_eq_true] at hkk
      rw [hkk, Bool.false_or]
      clear h
      induction m with
      | nil => rfl
      | cons p m ih =>
        by_cases hp : (p.1 == k) = true
        · have hp1 : p.1 = k := beq_iff_eq.mp hp
          simp only [List.map_cons, if_pos hp, jsMapHas_cons, ih]
          simp [hp1, hkk]
        · simp only [List.map_cons, if_neg hp, jsMapHas_cons, ih]
  · rw [if_neg h]
    rw [Bool.not_eq_true] at h
    induction m with
    | nil => simp [jsMapHas_cons, jsMapHas]
    | cons p m ih =>
      rw [jsMapHas_cons, Bool.or_eq_false_iff] at h
      rw [List.cons_append, jsMapHas_cons, ih h.2, jsMapHas_cons]
      cases k == k' <;> cases p.1 == k' <;> simp

theorem jsMapSet_keys_of_has {α β : Type} [BEq α] [LawfulBEq α]
    (m : List (α × β)) (k : α) (v : β) (h : jsMapHas m k = true) :
    (jsMapSet m k v).map Prod.fst = m.map Prod.fst := by
  unfold jsMapSet
  rw [if_pos h]
  clear h
  induction m with
  | nil => rfl
  | cons p m ih =>
    by_cases hp : (p.1 == k) = true
    · have hp1 : p.1 = k := beq_iff_eq.mp hp
      simp [hp, hp1, ih]
    · simp [hp, ih]

theorem jsMapSet_keys_of_not_has {α β : Type} [BEq α]
    (m : List (α × β)) (k : α) (v : β) (h : jsMapHas m k = false) :
    (jsMapSet m k v).map Prod.fst = m.map Prod.fst ++ [k] := by
  unfold jsMapSet
  rw [if_neg (by simp [h])]
  simp

theorem jsMapHas_iff_mem {α β : Type} [BEq α] [LawfulBEq α]
    (m : List (α × β)) (k : α) :
    jsMapHas m k = true ↔ k ∈ m.map Prod.fst := by
  induction m with
  | nil => simp [jsMapHas]
  | cons p m ih =>
    rw [jsMapHas_cons, Bool.or_eq_true, ih]
    simp only [List.map_cons, List.mem_cons, beq_iff_eq]
    constructor
    · rintro (h | h)
      · exact Or.inl h.symm
      · exact Or.inr h
    · rintro (h | h)
      · exact Or.inl h.symm
      · exact Or.inr h

theorem jsMapSet_mem {α β : Type} [BEq α] (m : List (α × β)) (k : α)
    (v : β) (p : α × β) (hp : p ∈ jsMapSet m k v) :
    p ∈ m ∨ p = (k, v) := by
  unfold jsMapSet at hp
  by_cases h : jsMapHas m k
  · rw [if_pos h] at hp
    obtain ⟨q, hq, hqe⟩ := List.mem_map.mp hp
    by_cases hqk : (q.1 == k) = true
    · right
      rw [← hqe, if_pos hqk]
    · left
      rw [← hqe, if_neg hqk]
      exact hq
  · rw [if_neg h] at hp
    rcases List.mem_append.mp hp with h | h
    · exact Or.inl h
    · exact Or.inr (List.mem_singleton.mp h)

/-- The fold step of `buildItemMap`, named for the proofs. -/
def buildStep (now : Nat) (m : List (String × GalleryImageItem))
    (item : RawImageItem) : List (String × GalleryImageItem) :=
  if item.filename = "" then m
  else jsMapSet m item.filename (normItem now item)

theorem buildItemMap_eq (now : Nat) (items : List RawImageItem) :
    buildItemMap now items = items.foldl (buildStep now) [] :=
  rfl

theorem buildFold_entry_inv (now : Nat) (items : List RawImageItem) :
    ∀ (m : List (String × GalleryImageItem)),
      (∀ p ∈ m, p.2.filename = p.1 ∧ ItemWF p.2) →
      ∀ p ∈ items.foldl (buildStep now) m,
        p.2.filename = p.1 ∧ ItemWF p.2 := by
  induction items with
  | nil => intro m hm; exact hm
  | cons it items ih =>
    intro m hm
    apply ih
    intro p hp
    unfold buildStep at hp
    by_cases hf : it.filename = ""
    · rw [if_pos hf] at hp
      exact hm p hp
    · rw [if_neg hf] at hp
      rcases jsMapSet_mem m it.filename (normItem now it) p hp with h | h
      · exact hm p h
      · subst h
        exact ⟨rfl, normItem_wf now it hf⟩

theorem buildFold_keys_nodup (now : Nat) (items : List RawImageItem) :
    ∀ (m : List (String × GalleryImageItem)),
      (m.map Prod.fst).Nodup →
      ((items.foldl (buildStep now) m).map Prod.fst).Nodup := by
  induction items with
  | nil => intro m hm; exact hm
  | cons it items ih =>
    intro m hm
    apply ih
    unfold buildStep
    by_cases hf : it.filename = ""
    · rw [if_pos hf]; exact hm
    · rw [if_neg hf]
      by_cases h : jsMapHas m it.filename = true
      · rw [jsMapSet_keys_of_has m _ _ h]; exact hm
      · rw [Bool.not_eq_true] at h
        rw [jsMapSet_keys_of_not_has m _ _ h]
        have hk : it.filename ∉ m.map Prod.fst := by
          intro hmem
          rw [(jsMapHas_iff_mem m it.filename).mpr hmem] at h
          cases h
        simp [List.nodup_append, hm, hk]

theorem buildFold_get (now : Nat) (k : String) (hk : k ≠ "") :
    ∀ (items : List RawImageItem)
      (m : List (String × GalleryImageItem)),
      jsMapGet (items.foldl (buildStep now) m) k =
        match (items.reverse).find? (fun it => it.filename == k) with
        | some it => some (normItem now it)
        | none => jsMapGet m k := by
  intro items
  induction items with
  | nil => intro m; rfl
  | cons it items ih =>
    intro m
    simp only [List.foldl_cons, List.reverse_cons]
    rw [ih (buildStep now m it), List.find?_append]
    rcases hfind : (items.reverse).find? (fun it => it.filename == k) with
      _ | j
    · rw [hfind]
      by_cases hit : (it.filename == k) = true
      · have hfe : it.filename = k := beq_iff_eq.mp hit
        have hne : it.filename ≠ "" := by rw [hfe]; exact hk
        simp only [Option.none_or, List.find?_cons, hit]
        unfold buildStep
        rw [if_neg hne, hfe]
        exact jsMapGet_set_self m k (normItem now it)
      · simp only [Option.none_or, List.find?_cons, hit]
        simp only [Bool.not_eq_true] at hit
        unfold buildStep
        by_cases hf : it.filename = ""
        · rw [if_pos hf]
          rfl
        · rw [if_neg hf]
          exact jsMapGet_set_ne m it.filename k (normItem now it)
            (fun he => by rw [he] at hit; simp at hit)
    · rw [hfind]
      rfl

theorem buildFold_toRaw_fresh (now : Nat) :
    ∀ (l : List GalleryImageItem)
      (m : List (String × GalleryImageItem)),
      (∀ g ∈ l, ItemWF g) →
      ((l.map (fun g => g.filename)).Nodup) →
      (∀ g ∈ l, jsMapHas m g.filename = false) →
      (l.map galleryToRaw).foldl (buildStep now) m =
        m ++ l.map (fun g => (g.filename, g)) := by
  intro l
  induction l with
  | nil => intro m _ _ _; simp
  | cons g l ih =>
    intro m hwf hnd hfresh
    rw [List.map_cons] at hnd
    have hndc := List.nodup_cons.mp hnd
    have hg : ItemWF g := hwf g (List.mem_cons_self g l)
    have hstep : buildStep now m (galleryToRaw g) =
        m ++ [(g.filename, g)] := by
      unfold buildStep
      have hfg : (galleryToRaw g).filename = g.filename := rfl
      rw [hfg, if_neg hg.1, normItem_galleryToRaw now g hg]
      unfold jsMapSet
      rw [if_neg (by simp [hfresh g (List.mem_cons_self g l)])]
    have hwf' : ∀ g' ∈ l, ItemWF g' :=
      fun g' h => hwf g' (List.mem_cons_of_mem g h)
    have hfresh' : ∀ g' ∈ l,
        jsMapHas (m ++ [(g.filename, g)]) g'.filename = false := by
      intro g' h
      have h1 : jsMapHas m g'.filename = false :=
        hfresh g' (List.mem_cons_of_mem g h)
      have h2 : g.filename ≠ g'.filename := by
        intro he
        exact hndc.1 (he ▸ List.mem_map_of_mem (fun g => g.filename) h)
      simp only [jsMapHas, List.any_append, Bool.or_eq_false_iff]
      constructor
      · simpa [jsMapHas] using h1
      · simp [h2]
    simp only [List.map_cons, List.foldl_cons, hstep]
    rw [ih (m ++ [(g.filename, g)]) hwf' hndc.2 hfresh']
    simp

theorem jsMap_ext {α β : Type} [BEq α] [LawfulBEq α] :
    ∀ (m1 m2 : List (α × β)),
      m1.map Prod.fst = m2.map Prod.fst →
      (m1.map Prod.fst).Nodup →
      (∀ k ∈ m1.map Prod.fst, jsMapGet m1 k = jsMapGet m2 k) →
      m1 = m2 := by
  intro m1
  induction m1 with
  | nil =>
    intro m2 hk _ _
    match m2 with
    | [] => rfl
    | q :: m2 => simp at hk
  | cons p m1 ih =>
    intro m2 hk hnd hget
    match m2 with
    | [] => simp at hk
    | q :: m2 =>
      simp only [List.map_cons] at hk
      injection hk with hk1 hk2
      rw [List.map_cons] at hnd
      have hndc := List.nodup_cons.mp hnd
      have hv : p.2 = q.2 := by
        have h := hget p.1 (by simp)
        rw [jsMapGet_cons, jsMapGet_cons, if_pos (by simp),
          if_pos (by simp [← hk1])] at h
        exact Option.some.inj h
      have hpq : p = q := by
        cases p
        cases q
        simp only at hk1 hv
        rw [hk1, hv]
      have htail : m1 = m2 := by
        apply ih m2 hk2 hndc.2
        intro k hkmem
        have hkp : (p.1 == k) = false := by
          rw [beq_eq_false_iff_ne]
          intro he
          exact hndc.1 (he ▸ hkmem)
        have h := hget k (by simp [hkmem])
        rw [jsMapGet_cons, jsMapGet_cons, if_neg (by simp [hkp]),
          if_neg (by rw [← hk1]; simp [hkp])] at h
        exact h
      rw [hpq, htail]

theorem jsMapGet_map_pair (l : List GalleryImageItem) (k : String) :
    jsMapGet (l.map (fun g => (g.filename, g))) k =
      l.find? (fun g => g.filename == k) := by
  induction l with
  | nil => rfl
  | cons g l ih =>
    by_cases h : (g.filename == k) = true
    · simp [jsMapGet_cons, List.find?_cons, h]
    · rw [Bool.not_eq_true] at h
      simp [jsMapGet_cons, List.find?_cons, h, ih]

theorem find?_of_nodup_mem (l : List GalleryImageItem)
    (w : GalleryImageItem) (k : String)
    (hnd : (l.map (fun g => g.filename)).Nodup) (hw : w ∈ l)
    (hwk : w.filename = k) :
    l.find? (fun g => g.filename == k) = some w := by
  induction l with
  | nil => cases hw
  | cons g l ih =>
    rw [List.map_cons] at hnd
    have hndc := List.nodup_cons.mp hnd
    rcases List.mem_cons.mp hw with h | h
    · subst h
      exact List.find?_cons_of_pos _ (by simp [hwk])
    · have hgk : (g.filename == k) = false := by
        rw [beq_eq_false_iff_ne]
        intro he
        refine hndc.1 ?_
        rw [he, ← hwk]
        exact List.mem_map_of_mem (fun g => g.filename) h
      rw [List.find?_cons_of_neg _ (by simp [hgk])]
      exact ih hndc.2 h

theorem buildFold_has (now : Nat) (k : String) (hk : k ≠ "") :
    ∀ (items : List RawImageItem)
      (m : List (String × GalleryImageItem)),
      jsMapHas (items.foldl (buildStep now) m) k =
        (items.any (fun it => it.filename == k) || jsMapHas m k) := by
  intro items
  induction items with
  | nil => intro m; simp
  | cons it items ih =>
    intro m
    simp only [List.foldl_cons, List.any_cons]
    rw [ih (buildStep now m it)]
    unfold buildStep
    by_cases hf : it.filename = ""
    · rw [if_pos hf]
      have : (it.filename == k) = false := by
        rw [hf, beq_eq_false_iff_ne]
        exact fun he => hk he.symm
      rw [this, Bool.false_or]
    · rw [if_neg hf, jsMapHas_set]
      cases it.filename == k <;>
        cases items.any (fun it => it.filename == k) <;>
        cases jsMapHas m k <;> rfl

theorem buildFold_keys_preserved (now : Nat) :
    ∀ (ys : List RawImageItem)
      (m : List (String × GalleryImageItem)),
      (∀ it ∈ ys, it.filename ≠ "" → jsMapHas m it.filename = true) →
      (ys.foldl (buildStep now) m).map Prod.fst = m.map Prod.fst := by
  intro ys
  induction ys with
  | nil => intro m _; rfl
  | cons it ys ih =>
    intro m hmem
    simp only [List.foldl_cons]
    by_cases hf : it.filename = ""
    · have hstep : buildStep now m it = m := by
        unfold buildStep
        rw [if_pos hf]
      rw [hstep]
      exact ih m (fun it' h h' => hmem it' (List.mem_cons_of_mem it h) h')
    · have hhas : jsMapHas m it.filename = true :=
        hmem it (List.mem_cons_self it ys) hf
      have hstep : buildStep now m it =
          jsMapSet m it.filename (normItem now it) := by
        unfold buildStep
        rw [if_neg hf]
      rw [hstep,
        ih (jsMapSet m it.filename (normItem now it)) ?_,
        jsMapSet_keys_of_has m _ _ hhas]
      intro it' h h'
      rw [jsMapHas_set]
      rw [hmem it' (List.mem_cons_of_mem it h) h']
      simp

theorem jsMapGet_mem_values {α β : Type} [BEq α]
    (m : List (α × β)) (k : α) (w : β) (h : jsMapGet m k = some w) :
    w ∈ jsMapValues m := by
  unfold jsMapGet at h
  rcases hfind : m.find? (fun p => p.1 == k) with _ | p
  · rw [hfind] at h
    cases h
  · rw [hfind] at h
    have hw : some p.2 = some w := h
    have hp : p ∈ m := List.mem_of_find?_eq_some hfind
    rw [← Option.some.inj hw]
    exact List.mem_map_of_mem Prod.snd hp

/-- The shape every `normalizeDayItems` output has: well-formed items,
no duplicate filenames, sorted by `createdAt` descending. -/
def CleanItems (l : List GalleryImageItem) : Prop :=
  (∀ g ∈ l, ItemWF g) ∧ ((l.map (fun g => g.filename)).Nodup) ∧
    l.Sorted itemGE

theorem normalizeDayItems_clean (now : Nat) (items : List RawImageItem) :
    CleanItems (normalizeDayItems now items) := by
  unfold CleanItems normalizeDayItems
  have hinv := buildFold_entry_inv now items []
    (fun p hp => absurd hp (List.not_mem_nil p))
  have hnodup := buildFold_keys_nodup now items [] List.nodup_nil
  rw [← buildItemMap_eq] at hinv hnodup
  have hvk : (jsMapValues (buildItemMap now items)).map
      (fun g => g.filename) = (buildItemMap now items).map Prod.fst := by
    unfold jsMapValues
    rw [List.map_map]
    apply List.map_congr_left
    intro p hp
    exact (hinv p hp).1
  have hperm : List.Perm
      (List.insertionSort itemGE (jsMapValues (buildItemMap now items)))
      (jsMapValues (buildItemMap now items)) :=
    List.perm_insertionSort itemGE _
  refine ⟨?_, ?_, ?_⟩
  · intro g hg
    have hg' : g ∈ jsMapValues (buildItemMap now items) :=
      hperm.mem_iff.mp hg
    obtain ⟨p, hp, hpe⟩ := List.mem_map.mp hg'
    rw [← hpe]
    exact (hinv p hp).2
  · have hmapperm := hperm.map (fun g => g.filename)
    rw [hmapperm.nodup_iff, hvk]
    exact hnodup
  · exact List.sorted_insertionSort itemGE _

theorem normalize_toRaw_of_clean (now : Nat) (l : List GalleryImageItem)
    (h : CleanItems l) :
    normalizeDayItems now (l.map galleryToRaw) = l := by
  unfold normalizeDayItems
  rw [buildItemMap_eq,
    buildFold_toRaw_fresh now l [] h.1 h.2.1 (fun g _ => rfl),
    List.nil_append]
  have hv : jsMapValues (l.map (fun g => (g.filename, g))) = l := by
    unfold jsMapValues
    rw [List.map_map]
    have : (Prod.snd ∘ fun g : GalleryImageItem => (g.filename, g)) =
        id := rfl
    rw [this, List.map_id]
  rw [hv]
  exact List.Sorted.insertionSort_eq h.2.2

/-- Re-feeding the already-incorporated raw items `ys` into a normalized
list leaves it unchanged: this is the per-date step of a repeated
`mergeImageDayGroups`. -/
theorem normalize_reapply (now : Nat) (xs ys : List RawImageItem) :
    normalizeDayItems now
      ((normalizeDayItems now (xs ++ ys)).map galleryToRaw ++ ys) =
    normalizeDayItems now (xs ++ ys) := by
  have hclean : CleanItems (normalizeDayItems now (xs ++ ys)) :=
    normalizeDayItems_clean now (xs ++ ys)
  obtain ⟨hwf, hnd, hsorted⟩ := hclean
  have hpairs : ∀ k ∈ (normalizeDayItems now (xs ++ ys)).map
      (fun g => g.filename), k ≠ "" := by
    intro k hk
    obtain ⟨g, hg, hge⟩ := List.mem_map.mp hk
    rw [← hge]
    exact (hwf g hg).1
  have hbuild1 : buildItemMap now
      ((normalizeDayItems now (xs ++ ys)).map galleryToRaw ++ ys) =
      ys.foldl (buildStep now)
        ((normalizeDayItems now (xs ++ ys)).map
          (fun g => (g.filename, g))) := by
    rw [buildItemMap_eq, List.foldl_append,
      buildFold_toRaw_fresh now _ [] hwf hnd (fun g _ => rfl),
      List.nil_append]
  have hkeys0 : ((normalizeDayItems now (xs ++ ys)).map
      (fun g => (g.filename, g))).map Prod.fst =
      (normalizeDayItems now (xs ++ ys)).map (fun g => g.filename) := by
    rw [List.map_map]
    rfl
  have hysmem : ∀ it ∈ ys, it.filename ≠ "" →
      jsMapHas ((normalizeDayItems now (xs ++ ys)).map
        (fun g => (g.filename, g))) it.filename = true := by
    intro it hit hne
    rw [jsMapHas_iff_mem, hkeys0]
    -- it.filename is a key of the map built over xs ++ ys
    have hhasM : jsMapHas (buildItemMap now (xs ++ ys)) it.filename =
        true := by
      rw [buildItemMap_eq, buildFold_has now it.filename hne]
      have : (xs ++ ys).any (fun i => i.filename == it.filename) = true := by
        rw [List.any_eq_true]
        exact ⟨it, List.mem_append_right xs hit, by simp⟩
      rw [this, Bool.true_or]
    -- transfer key membership through values/sort
    have hinv := buildFold_entry_inv now (xs ++ ys) []
      (fun p hp => absurd hp (List.not_mem_nil p))
    rw [← buildItemMap_eq] at hinv
    have hvk : (jsMapValues (buildItemMap now (xs ++ ys))).map
        (fun g => g.filename) =
        (buildItemMap now (xs ++ ys)).map Prod.fst := by
      unfold jsMapValues
      rw [List.map_map]
      apply List.map_congr_left
      intro p hp
      exact (hinv p hp).1
    have hperm : List.Perm
        ((normalizeDayItems now (xs ++ ys)).map (fun g => g.filename))
        ((jsMapValues (buildItemMap now (xs ++ ys))).map
          (fun g => g.filename)) :=
      (List.perm_insertionSort itemGE _).map _
    rw [hperm.mem_iff, hvk, ← jsMapHas_iff_mem]
    exact hhasM
  have hmain : ys.foldl (buildStep now)
      ((normalizeDayItems now (xs ++ ys)).map
        (fun g => (g.filename, g))) =
      (normalizeDayItems now (xs ++ ys)).map
        (fun g => (g.filename, g)) := by
    apply jsMap_ext
    · rw [buildFold_keys_preserved now ys _ hysmem]
    · rw [buildFold_keys_preserved now ys _ hysmem, hkeys0]
      exact hnd
    · intro k hkmem
      rw [buildFold_keys_preserved now ys _ hysmem, hkeys0] at hkmem
      have hk : k ≠ "" := hpairs k hkmem
      rw [buildFold_get now k hk ys _]
      rcases hfind : (ys.reverse).find? (fun it => it.filename == k) with
        _ | it
      · rw [hfind]
      · rw [hfind]
        have hsat := List.find?_some hfind
        have hitk : it.filename = k := beq_iff_eq.mp hsat
        have hgetM : jsMapGet (buildItemMap now (xs ++ ys)) k =
            some (normItem now it) := by
          rw [buildItemMap_eq, buildFold_get now k hk (xs ++ ys) [],
            List.reverse_append, List.find?_append, hfind]
          rfl
        have hmem : normItem now it ∈
            normalizeDayItems now (xs ++ ys) := by
          have hv : normItem now it ∈
              jsMapValues (buildItemMap now (xs ++ ys)) :=
            jsMapGet_mem_values _ k _ hgetM
          exact ((List.perm_insertionSort itemGE _).mem_iff).mpr hv
        have hfn : (normItem now it).filename = k := hitk
        rw [jsMapGet_map_pair,
          find?_of_nodup_mem _ (normItem now it) k hnd hmem hfn]
  show List.insertionSort itemGE (jsMapValues (buildItemMap now _)) = _
  rw [hbuild1, hmain]
  have hv : jsMapValues ((normalizeDayItems now (xs ++ ys)).map
      (fun g => (g.filename, g))) = normalizeDayItems now (xs ++ ys) := by
    unfold jsMapValues
    rw [List.map_map]
    have : (Prod.snd ∘ fun g : GalleryImageItem => (g.filename, g)) =
        id := rfl
    rw [this, List.map_id]
  rw [hv]
  exact List.Sorted.insertionSort_eq hsorted

/-- A day group as stored by the app (items already normalized). -/
structure ImageDayGroup where
  date : Nat
  items : List GalleryImageItem
deriving Repr, DecidableEq

/-- A day group as consumed by the merge fold, with raw items. -/
structure RawDayGroup where
  date : Nat
  items : List RawImageItem
deriving Repr, DecidableEq

/-- Re-reading a stored group as input (duck typing in the JS source). -/
def groupToRaw (g : ImageDayGroup) : RawDayGroup :=
  ⟨g.date, g.items.map galleryToRaw⟩

/-- Comparator of the date sort of `mergeImageDayGroups`
(`new Date(b.date) - new Date(a.date)`, descending, stable). -/
def groupGE (a b : ImageDayGroup) : Prop := b.date ≤ a.date

instance : DecidableRel groupGE := fun a b => Nat.decLe b.date a.date

instance : IsTotal ImageDayGroup groupGE :=
  ⟨fun a b => Nat.le_total b.date a.date⟩

instance : IsTrans ImageDayGroup groupGE :=
  ⟨fun _ _ _ hab hbc => le_trans hbc hab⟩

/-- One step of the `dayMap` fold of `mergeImageDayGroups`: a new date
stores the normalized items; an existing date re-normalizes the stored
items concatenated with the group's items. -/
def mergeStep (now : Nat) (m : List (Nat × ImageDayGroup))
    (g : RawDayGroup) : List (Nat × ImageDayGroup) :=
  match jsMapGet m g.date with
  | none => jsMapSet m g.date ⟨g.date, normalizeDayItems now g.items⟩
  | some ex =>
      jsMapSet m g.date
        ⟨g.date,
          normalizeDayItems now (ex.items.map galleryToRaw ++ g.items)⟩

/-- `mergeImageDayGroups` (App.jsx): `[...currentGroups,
...incomingGroups]` folded through the `dayMap`, then the values sorted by
date descending. -/
def mergeImageDayGroups (now : Nat)
    (currentGroups incomingGroups : List ImageDayGroup) :
    List ImageDayGroup :=
  List.insertionSort groupGE
    (jsMapValues
      (((currentGroups ++ incomingGroups).map groupToRaw).foldl
        (mergeStep now) []))

theorem jsMapSet_eq_self {α β : Type} [BEq α] [LawfulBEq α] :
    ∀ (m : List (α × β)) (k : α) (v : β),
      jsMapGet m k = some v → (m.map Prod.fst).Nodup →
      jsMapSet m k v = m := by
  intro m
  induction m with
  | nil => intro k v hget _; cases hget
  | cons p m ih =>
    intro k v hget hnd
    rw [List.map_cons] at hnd
    have hndc := List.nodup_cons.mp hnd
    by_cases hp : (p.1 == k) = true
    · have hp1 : p.1 = k := beq_iff_eq.mp hp
      subst hp1
      rw [jsMapGet_cons, if_pos hp] at hget
      have hv : p.2 = v := Option.some.inj hget
      subst hv
      have hhas : jsMapHas (p :: m) p.1 = true := by
        rw [jsMapHas_cons]
        simp
      have hid : ∀ q ∈ m,
          (if q.1 == p.1 then (p.1, p.2) else q) = q := by
        intro q hq
        rw [if_neg]
        intro hqk
        exact hndc.1
          (beq_iff_eq.mp hqk ▸ List.mem_map_of_mem Prod.fst hq)
      unfold jsMapSet
      rw [if_pos hhas, List.map_cons, if_pos hp, Prod.mk.eta,
        List.map_congr_left hid, List.map_id']
    · rw [jsMapGet_cons, if_neg hp] at hget
      have hset := ih k v hget hndc.2
      unfold jsMapSet at hset ⊢
      by_cases hhas : jsMapHas m k = true
      · rw [if_pos hhas] at hset
        rw [if_pos (by rw [jsMapHas_cons, hhas]; simp), List.map_cons,
          if_neg hp, hset]
      · rw [Bool.not_eq_true] at hhas
        rw [if_neg (by simp [hhas]) ] at hset
        rw [if_neg (by rw [jsMapHas_cons, hhas]
                       simp [hp]), List.cons_append]
        rw [show m ++ [(k, v)] = m from hset]

theorem mergeStep_get_ne (now : Nat) (m : List (Nat × ImageDayGroup))
    (g : RawDayGroup) (d : Nat) (h : d ≠ g.date) :
    jsMapGet (mergeStep now m g) d = jsMapGet m d := by
  unfold mergeStep
  rcases hx : jsMapGet m g.date with _ | ex <;>
    simp [hx, jsMapGet_set_ne _ _ _ _ h]

theorem mergeStep_has (now : Nat) (m : List (Nat × ImageDayGroup))
    (g : RawDayGroup) (k : Nat) :
    jsMapHas (mergeStep now m g) k = ((g.date == k) || jsMapHas m k) := by
  unfold mergeStep
  rcases hx : jsMapGet m g.date with _ | ex <;> rw [jsMapHas_set]

theorem jsMapSet_keys_nodup {α β : Type} [BEq α] [LawfulBEq α]
    (m : List (α × β)) (k : α) (v : β) (h : (m.map Prod.fst).Nodup) :
    ((jsMapSet m k v).map Prod.fst).Nodup := by
  by_cases hhas : jsMapHas m k = true
  · rw [jsMapSet_keys_of_has m k v hhas]
    exact h
  · rw [Bool.not_eq_true] at hhas
    rw [jsMapSet_keys_of_not_has m k v hhas]
    have hk : k ∉ m.map Prod.fst := by
      intro hmem
      rw [(jsMapHas_iff_mem m k).mpr hmem] at hhas
      cases hhas
    simp [List.nodup_append, h, hk]

theorem mergeFold_keys_nodup (now : Nat) :
    ∀ (gs : List RawDayGroup) (m : List (Nat × ImageDayGroup)),
      (m.map Prod.fst).Nodup →
      ((gs.foldl (mergeStep now) m).map Prod.fst).Nodup := by
  intro gs
  induction gs with
  | nil => intro m hm; exact hm
  | cons g gs ih =>
    intro m hm
    apply ih
    unfold mergeStep
    rcases hx : jsMapGet m g.date with _ | ex <;>
      exact jsMapSet_keys_nodup m g.date _ hm

theorem mergeFold_entry_inv (now : Nat) :
    ∀ (gs : List RawDayGroup) (m : List (Nat × ImageDayGroup)),
      (∀ p ∈ m, p.2.date = p.1 ∧
        ∃ src, p.2.items = normalizeDayItems now src) →
      ∀ p ∈ gs.foldl (mergeStep now) m,
        p.2.date = p.1 ∧ ∃ src, p.2.items = normalizeDayItems now src := by
  intro gs
  induction gs with
  | nil => intro m hm; exact hm
  | cons g gs ih =>
    intro m hm
    apply ih
    intro p hp
    unfold mergeStep at hp
    rcases hx : jsMapGet m g.date with _ | ex <;> rw [hx] at hp
    · rcases jsMapSet_mem m g.date _ p hp with h | h
      · exact hm p h
      · subst h
        exact ⟨rfl, ⟨g.items, rfl⟩⟩
    · rcases jsMapSet_mem m g.date _ p hp with h | h
      · exact hm p h
      · subst h
        exact ⟨rfl, ⟨ex.items.map galleryToRaw ++ g.items, rfl⟩⟩

/-- The last group with a given date (the one whose items win the merge). -/
def lastGroupWith (gs : List RawDayGroup) (d : Nat) : Option RawDayGroup :=
  (gs.reverse).find? (fun g => g.date == d)

theorem mergeFold_get_last (now : Nat) :
    ∀ (gs : List RawDayGroup) (m : List (Nat × ImageDayGroup)) (d : Nat),
      (lastGroupWith gs d = none →
        jsMapGet (gs.foldl (mergeStep now) m) d = jsMapGet m d) ∧
      (∀ g, lastGroupWith gs d = some g →
        ∃ xs, jsMapGet (gs.foldl (mergeStep now) m) d =
          some ⟨d, normalizeDayItems now (xs ++ g.items)⟩) := by
  intro gs
  induction gs with
  | nil =>
    intro m d
    constructor
    · intro _; rfl
    · intro g hg
      simp [lastGroupWith] at hg
  | cons g0 gs ih =>
    intro m d
    constructor
    · intro hnone
      unfold lastGroupWith at hnone
      rw [List.reverse_cons, List.find?_append] at hnone
      rcases hfind : (gs.reverse).find? (fun g => g.date == d) with _ | j
      · rw [hfind] at hnone
        simp only [Option.none_or] at hnone
        have hp : (g0.date == d) = false := by
          by_cases hp : (g0.date == d) = true
          · simp only [List.find?, hp] at hnone
            cases hnone
          · rw [Bool.not_eq_true] at hp
            exact hp
        simp only [List.foldl_cons]
        rw [(ih (mergeStep now m g0) d).1 (by
          unfold lastGroupWith
          exact hfind)]
        exact mergeStep_get_ne now m g0 d (by
          rw [beq_eq_false_iff_ne] at hp
          exact fun he => hp he.symm)
      · rw [hfind] at hnone
        exact absurd hnone (by simp)
    · intro g hg
      unfold lastGroupWith at hg
      rw [List.reverse_cons, List.find?_append] at hg
      rcases hfind : (gs.reverse).find? (fun g => g.date == d) with _ | j
      · rw [hfind] at hg
        simp only [Option.none_or] at hg
        have hp : (g0.date == d) = true := by
          by_cases hp : (g0.date == d) = true
          · exact hp
          · rw [Bool.not_eq_true] at hp
            simp only [List.find?, hp] at hg
            cases hg
        have hge : g = g0 := by
          simp only [List.find?, hp, Option.some.injEq] at hg
          exact hg.symm
        subst hge
        have hd : g.date = d := beq_iff_eq.mp hp
        have hstep : ∃ xs, jsMapGet (mergeStep now m g) d =
            some ⟨d, normalizeDayItems now (xs ++ g.items)⟩ := by
          unfold mergeStep
          rcases hx : jsMapGet m g.date with _ | ex
          · refine ⟨[], ?_⟩
            rw [← hd, jsMapGet_set_self, List.nil_append, hd]
          · refine ⟨ex.items.map galleryToRaw, ?_⟩
            rw [← hd, jsMapGet_set_self, hd]
        obtain ⟨xs, hxs⟩ := hstep
        refine ⟨xs, ?_⟩
        simp only [List.foldl_cons]
        rw [(ih (mergeStep now m g) d).1 (by
          unfold lastGroupWith
          exact hfind)]
        exact hxs
      · rw [hfind] at hg
        have hgj : some j = some g := hg
        have hje : j = g := Option.some.inj hgj
        subst hje
        simp only [List.foldl_cons]
        exact (ih (mergeStep now m g0) d).2 j (by
          unfold lastGroupWith
          exact hfind)

theorem foldl_id {γ δ : Type} (f : δ → γ → δ) :
    ∀ (bs : List γ) (m : δ), (∀ b ∈ bs, f m b = m) →
      bs.foldl f m = m := by
  intro bs
  induction bs with
  | nil => intro m _; rfl
  | cons b bs ih =>
    intro m h
    simp only [List.foldl_cons, h b (List.mem_cons_self b bs)]
    exact ih m (fun b' hb' => h b' (List.mem_cons_of_mem b hb'))

theorem jsMapGet_map_pair_group (l : List ImageDayGroup) (d : Nat) :
    jsMapGet (l.map (fun g => (g.date, g))) d =
      l.find? (fun g => g.date == d) := by
  induction l with
  | nil => rfl
  | cons g l ih =>
    by_cases h : (g.date == d) = true
    · simp [jsMapGet_cons, List.find?, h]
    · rw [Bool.not_eq_true] at h
      simp [jsMapGet_cons, List.find?, h, ih]

theorem find?_group_nodup_mem (l : List ImageDayGroup)
    (w : ImageDayGroup) (d : Nat)
    (hnd : (l.map (fun g => g.date)).Nodup) (hw : w ∈ l)
    (hwd : w.date = d) :
    l.find? (fun g => g.date == d) = some w := by
  induction l with
  | nil => cases hw
  | cons g l ih =>
    rw [List.map_cons] at hnd
    have hndc := List.nodup_cons.mp hnd
    rcases List.mem_cons.mp hw with h | h
    · subst h
      have hp : (w.date == d) = true := by simp [hwd]
      simp [List.find?, hp]
    · have hgk : (g.date == d) = false := by
        rw [beq_eq_false_iff_ne]
        intro he
        refine hndc.1 ?_
        rw [he, ← hwd]
        exact List.mem_map_of_mem (fun g => g.date) h
      simp only [List.find?, hgk]
      exact ih hndc.2 h

theorem find?_rawgroup_nodup_mem (l : List RawDayGroup)
    (w : RawDayGroup) (d : Nat)
    (hnd : (l.map (fun g => g.date)).Nodup) (hw : w ∈ l)
    (hwd : w.date = d) :
    l.find? (fun g => g.date == d) = some w := by
  induction l with
  | nil => cases hw
  | cons g l ih =>
    rw [List.map_cons] at hnd
    have hndc := List.nodup_cons.mp hnd
    rcases List.mem_cons.mp hw with h | h
    · subst h
      have hp : (w.date == d) = true := by simp [hwd]
      simp [List.find?, hp]
    · have hgk : (g.date == d) = false := by
        rw [beq_eq_false_iff_ne]
        intro he
        refine hndc.1 ?_
        rw [he, ← hwd]
        exact List.mem_map_of_mem (fun g => g.date) h
      simp only [List.find?, hgk]
      exact ih hndc.2 h

theorem lastGroupWith_append (xs ys : List RawDayGroup) (d : Nat) :
    lastGroupWith (xs ++ ys) d =
      match lastGroupWith ys d with
      | some j => some j
      | none => lastGroupWith xs d := by
  unfold lastGroupWith
  rw [List.reverse_append, List.find?_append]
  rcases hfind : (ys.reverse).find? (fun g => g.date == d) with _ | j <;>
    rw [hfind] <;> rfl

theorem mergeFold_pairs_fresh (now : Nat) :
    ∀ (l : List ImageDayGroup) (m : List (Nat × ImageDayGroup)),
      (∀ g ∈ l, CleanItems g.items) →
      ((l.map (fun g => g.date)).Nodup) →
      (∀ g ∈ l, jsMapHas m g.date = false) →
      (l.map groupToRaw).foldl (mergeStep now) m =
        m ++ l.map (fun g => (g.date, g)) := by
  intro l
  induction l with
  | nil => intro m _ _ _; simp
  | cons g l ih =>
    intro m hclean hnd hfresh
    rw [List.map_cons] at hnd
    have hndc := List.nodup_cons.mp hnd
    have hhasg : jsMapHas m (groupToRaw g).date = false :=
      hfresh g (List.mem_cons_self g l)
    have hstep : mergeStep now m (groupToRaw g) = m ++ [(g.date, g)] := by
      unfold mergeStep
      rw [jsMapGet_eq_none_of_not_has m _ hhasg]
      show jsMapSet m (groupToRaw g).date
        ⟨(groupToRaw g).date, normalizeDayItems now (groupToRaw g).items⟩ =
        m ++ [(g.date, g)]
      unfold jsMapSet
      rw [if_neg (by rw [hhasg]; simp)]
      show m ++ [(g.date, ⟨g.date,
        normalizeDayItems now (g.items.map galleryToRaw)⟩)] =
        m ++ [(g.date, g)]
      rw [normalize_toRaw_of_clean now g.items
        (hclean g (List.mem_cons_self g l))]
    have hclean' : ∀ g' ∈ l, CleanItems g'.items :=
      fun g' h => hclean g' (List.mem_cons_of_mem g h)
    have hfresh' : ∀ g' ∈ l,
        jsMapHas (m ++ [(g.date, g)]) g'.date = false := by
      intro g' h
      have h1 : jsMapHas m g'.date = false :=
        hfresh g' (List.mem_cons_of_mem g h)
      have h2 : g.date ≠ g'.date := by
        intro he
        exact hndc.1 (he ▸ List.mem_map_of_mem (fun g => g.date) h)
      simp only [jsMapHas, List.any_append, Bool.or_eq_false_iff]
      constructor
      · simpa [jsMapHas] using h1
      · simp [h2]
    simp only [List.map_cons, List.foldl_cons, hstep]
    rw [ih (m ++ [(g.date, g)]) hclean' hndc.2 hfresh']
    simp

theorem merge_reapply (now : Nat) (A B : List ImageDayGroup)
    (hB : (B.map (fun g => g.date)).Nodup) :
    mergeImageDayGroups now (mergeImageDayGroups now A B) B =
      mergeImageDayGroups now A B := by
  set M1 := ((A ++ B).map groupToRaw).foldl (mergeStep now) [] with hM1
  set C := List.insertionSort groupGE (jsMapValues M1) with hC
  have hinv := mergeFold_entry_inv now ((A ++ B).map groupToRaw) []
    (fun p hp => absurd hp (List.not_mem_nil p))
  have hkeysnd := mergeFold_keys_nodup now ((A ++ B).map groupToRaw) []
    List.nodup_nil
  rw [← hM1] at hinv hkeysnd
  have hvk : (jsMapValues M1).map (fun g => g.date) = M1.map Prod.fst := by
    unfold jsMapValues
    rw [List.map_map]
    exact List.map_congr_left (fun p hp => (hinv p hp).1)
  have hpermC : List.Perm C (jsMapValues M1) :=
    List.perm_insertionSort groupGE _
  have hCnd : (C.map (fun g => g.date)).Nodup := by
    rw [(hpermC.map (fun g => g.date)).nodup_iff, hvk]
    exact hkeysnd
  have hCclean : ∀ g ∈ C, CleanItems g.items := by
    intro g hg
    have hg' : g ∈ jsMapValues M1 := hpermC.mem_iff.mp hg
    obtain ⟨p, hp, hpe⟩ := List.mem_map.mp hg'
    obtain ⟨_, src, hsrc⟩ := hinv p hp
    rw [← hpe, hsrc]
    exact normalizeDayItems_clean now src
  have hCsorted : List.Sorted groupGE C :=
    List.sorted_insertionSort groupGE _
  have hfoldC : (C.map groupToRaw).foldl (mergeStep now) [] =
      C.map (fun g => (g.date, g)) := by
    have h := mergeFold_pairs_fresh now C [] hCclean hCnd (fun g _ => rfl)
    simpa using h
  have hCpairkeys : (C.map (fun g => (g.date, g))).map Prod.fst =
      C.map (fun g => g.date) := by
    rw [List.map_map]
    rfl
  have hstepid : ∀ rb ∈ B.map groupToRaw,
      mergeStep now (C.map (fun g => (g.date, g))) rb =
        C.map (fun g => (g.date, g)) := by
    intro rb hrb
    obtain ⟨b, hbB, hbe⟩ := List.mem_map.mp hrb
    subst hbe
    have hlastB : lastGroupWith (B.map groupToRaw) b.date =
        some (groupToRaw b) := by
      unfold lastGroupWith
      apply find?_rawgroup_nodup_mem
      · rw [List.map_reverse, List.nodup_reverse, List.map_map]
        exact hB
      · rw [List.mem_reverse]
        exact List.mem_map_of_mem groupToRaw hbB
      · rfl
    have hlastAB : lastGroupWith ((A ++ B).map groupToRaw) b.date =
        some (groupToRaw b) := by
      rw [List.map_append, lastGroupWith_append, hlastB]
    obtain ⟨xs, hget1⟩ :=
      (mergeFold_get_last now ((A ++ B).map groupToRaw) [] b.date).2
        (groupToRaw b) hlastAB
    rw [← hM1] at hget1
    have hwmem : (⟨b.date, normalizeDayItems now
        (xs ++ (groupToRaw b).items)⟩ : ImageDayGroup) ∈ C :=
      hpermC.mem_iff.mpr (jsMapGet_mem_values M1 b.date _ hget1)
    have hgetC : jsMapGet (C.map (fun g => (g.date, g))) b.date =
        some ⟨b.date,
          normalizeDayItems now (xs ++ (groupToRaw b).items)⟩ := by
      rw [jsMapGet_map_pair_group]
      exact find?_group_nodup_mem C _ b.date hCnd hwmem rfl
    unfold mergeStep
    rw [show (groupToRaw b).date = b.date from rfl, hgetC]
    show jsMapSet (C.map (fun g => (g.date, g))) b.date
      ⟨b.date, normalizeDayItems now
        ((normalizeDayItems now
          (xs ++ (groupToRaw b).items)).map galleryToRaw ++
            (groupToRaw b).items)⟩ =
      C.map (fun g => (g.date, g))
    rw [normalize_reapply now xs (groupToRaw b).items]
    apply jsMapSet_eq_self
    · exact hgetC
    · rw [hCpairkeys]
      exact hCnd
  have hfoldB := foldl_id (mergeStep now) (B.map groupToRaw)
    (C.map (fun g => (g.date, g))) hstepid
  show List.insertionSort groupGE
    (jsMapValues (((C ++ B).map groupToRaw).foldl (mergeStep now) [])) = C
  rw [List.map_append, List.foldl_append, hfoldC, hfoldB]
  have hvals : jsMapValues (C.map (fun g => (g.date, g))) = C := by
    unfold jsMapValues
    rw [List.map_map]
    have h : (Prod.snd ∘ fun g : ImageDayGroup => (g.date, g)) = id := rfl
    rw [h, List.map_id]
  rw [hvals]
  exact List.Sorted.insertionSort_eq hCsorted

/-- Item `f` at time 5 (C9 example data). -/
def itemF5 : GalleryImageItem := ⟨"f", "u1", "f", "3:2", "", 5⟩

/-- Item `g` at time 5 (C9 example data). -/
def itemG5 : GalleryImageItem := ⟨"g", "u2", "g", "3:2", "", 5⟩

/-- Item `f` at the earlier time 3 (C9 example data). -/
def itemF3 : GalleryImageItem := ⟨"f", "u1", "f", "3:2", "", 3⟩

/-- An incoming list that mentions the same date twice: the first group
holds the stale `f`, the second the fresh `f` and `g` with equal
timestamps. -/
def dupDateGroups : List ImageDayGroup :=
  [⟨1, [itemF3]⟩, ⟨1, [itemF5, itemG5]⟩]

/-- An incoming list with pairwise-distinct dates (C9 witness data). -/
def distinctDateGroups : List ImageDayGroup :=
  [⟨1, [itemF3]⟩, ⟨2, [itemF5, itemG5]⟩]

/-- C9 counterexample: `mergeImageDayGroups` is not idempotent as claimed.
When the incoming list repeats a date and two stored items tie on
`createdAt`, merging the same groups a second time permutes the tied items
(`[f, g]` becomes `[g, f]`), so applying the merge twice differs from
applying it once. -/
theorem C9_counterexample_merge_twice :
    mergeImageDayGroups 0 (mergeImageDayGroups 0 [] dupDateGroups)
      dupDateGroups ≠ mergeImageDayGroups 0 [] dupDateGroups := by
  decide

/-- C9 (amended): every day group produced by `normalizeDayItems` has each
filename at most once and is sorted by `createdAt` descending;
`mergeImageDayGroups` applied twice to the same groups equals applying it
once provided each date appears at most once in the incoming group list
(without that proviso the 0-counterexample applies); and the merge output
is sorted by date descending. -/
theorem C9_normalize_dedup_merge_idem :
    (∀ (now : Nat) (items : List RawImageItem),
      ((normalizeDayItems now items).map (fun e => e.filename)).Nodup ∧
      List.Sorted itemGE (normalizeDayItems now items)) ∧
    (∀ (now : Nat) (A B : List ImageDayGroup),
      (B.map (fun g => g.date)).Nodup →
      mergeImageDayGroups now (mergeImageDayGroups now A B) B =
        mergeImageDayGroups now A B) ∧
    (∀ (now : Nat) (cur inc : List ImageDayGroup),
      List.Sorted groupGE (mergeImageDayGroups now cur inc)) := by
  refine ⟨?_, merge_reapply, ?_⟩
  · intro now items
    obtain ⟨_, hnd, hsorted⟩ := normalizeDayItems_clean now items
    exact ⟨hnd, hsorted⟩
  · intro now cur inc
    exact List.sorted_insertionSort groupGE _

/-- Witness for the amended C9: with distinct incoming dates the repeated
merge is literally equal to the single merge, and the normalization facts
hold at concrete data. -/
theorem C9_normalize_dedup_merge_idem_witness :
    (((normalizeDayItems 0
        [⟨"", "u1", "f", "", "hello", some 3⟩,
         ⟨"", "u1", "f", "", "hello", some 5⟩,
         ⟨"g2", "u2", "g", "3:2", "", some 5⟩]).map
      (fun e => e.filename)).Nodup ∧
      List.Sorted itemGE (normalizeDayItems 0
        [⟨"", "u1", "f", "", "hello", some 3⟩,
         ⟨"", "u1", "f", "", "hello", some 5⟩,
         ⟨"g2", "u2", "g", "3:2", "", some 5⟩])) ∧
    mergeImageDayGroups 7 (mergeImageDayGroups 7 [] distinctDateGroups)
      distinctDateGroups =
      mergeImageDayGroups 7 [] distinctDateGroups ∧
    List.Sorted groupGE (mergeImageDayGroups 7 [] distinctDateGroups) :=
  ⟨C9_normalize_dedup_merge_idem.1 0 _,
   C9_normalize_dedup_merge_idem.2.1 7 [] distinctDateGroups (by decide),
   C9_normalize_dedup_merge_idem.2.2 7 [] distinctDateGroups⟩
